import Mathlib

/-!
Verification of the captcha segmentation pipeline of `extract_characters.py`
(repository `vk-new-captcha-solver`).

The development is a shallow embedding of `extract_characters` and of the
OpenCV primitives it calls.  Images are rectangular grids encoded as lists of
rows; pixel values are natural numbers in `0..255`.  The few places where
OpenCV computes with IEEE doubles (Otsu threshold selection, rectangle
grouping distances, averaging) are modelled by the exact rational value of the
same expression, written with integer cross-multiplication so that every
definition is executable and decidable.
-/

set_option maxRecDepth 20000

namespace VkCaptcha

/-! Data model: grids, color images, rectangles. -/

/-- A BGR pixel, channel order as in OpenCV. -/
abbrev BGR := Nat × Nat × Nat

/-- A single-channel image: list of rows, each row a list of pixel values. -/
abbrev Grid := List (List Nat)

/-- A three-channel (BGR) image: list of rows of BGR pixels. -/
abbrev CImg := List (List BGR)

/-- Height of a grid (`shape[0]`). -/
def gridH (g : Grid) : Nat := g.length

/-- Width of a grid (`shape[1]`, length of the first row). -/
def gridW (g : Grid) : Nat := (g.headD []).length

/-- Height of a color image (`shape[0]`). -/
def imgH (img : CImg) : Nat := img.length

/-- Width of a color image (`shape[1]`). -/
def imgW (img : CImg) : Nat := (img.headD []).length

/-- Pixel access with out-of-range default 0, `getPx g x y = g[y][x]`. -/
def getPx (g : Grid) (x y : Nat) : Nat := (g.getD y []).getD x 0

/-- Color pixel access with out-of-range default black. -/
def getC (img : CImg) (x y : Nat) : BGR := (img.getD y []).getD x (0, 0, 0)

/-- Materialize a `w × h` grid from a pixel function. -/
def mkGrid (w h : Nat) (f : Nat → Nat → Nat) : Grid :=
  (List.range h).map fun y => (List.range w).map fun x => f x y

/-- An axis-aligned rectangle `(x, y, width, height)` as returned by
`cv2.floodFill` and consumed by `cv2.groupRectangles`. -/
structure Rect where
  x : Nat
  y : Nat
  w : Nat
  h : Nat
  deriving DecidableEq, Repr

instance : Inhabited Rect := ⟨⟨0, 0, 0, 0⟩⟩

/-! Exact-arithmetic rounding helpers.  `cvRound` rounds half to even. -/

/-- Round `a / b` (`b > 0`) to the nearest natural, ties to even
(the behaviour of OpenCV `cvRound` on the exact quotient). -/
def natRoundHalfEven (a b : Nat) : Nat :=
  let q := a / b
  let r := a % b
  if 2 * r < b then q
  else if b < 2 * r then q + 1
  else if q % 2 = 0 then q else q + 1

/-- Round `a / b` (`b > 0`) to the nearest integer, ties to even. -/
def intRoundHalfEven (a : Int) (b : Nat) : Int :=
  let q := a / (b : Int)
  let r := a % (b : Int)
  if 2 * r < (b : Int) then q
  else if (b : Int) < 2 * r then q + 1
  else if q % 2 = 0 then q else q + 1

/-- Reflect-101 border index mapping (OpenCV `BORDER_DEFAULT`) for an axis of
length `n ≥ 1`: `... 2 1 | 0 1 2 ... n-1 | n-2 n-3 ...`. -/
def reflect101 (n : Nat) (i : Int) : Nat :=
  if n ≤ 1 then 0
  else
    let P : Int := 2 * (n : Int) - 2
    let p := ((i % P) + P) % P
    (if p < (n : Int) then p else P - p).toNat

/-! `cv2.cvtColor(image, cv2.COLOR_BGR2GRAY)`: OpenCV fixed-point weights
`R*4899 + G*9617 + B*1868` with shift 14 and rounding. -/

/-- Gray value of one BGR pixel. -/
def bgr2grayPx (p : BGR) : Nat :=
  (p.1 * 1868 + p.2.1 * 9617 + p.2.2 * 4899 + 8192) / 16384

/-- `cv2.cvtColor(·, COLOR_BGR2GRAY)`. -/
def cvtColorGray (img : CImg) : Grid := img.map (List.map bgr2grayPx)

/-! `cv2.blur`: normalized box filter, reflect-101 border, anchored at the
kernel centre, result rounded half to even (`saturate_cast<uchar>`). -/

/-- One output pixel of the normalized `kx × ky` box filter. -/
def blurPx (g : Grid) (w h kx ky : Nat) (x y : Nat) : Nat :=
  let ax := kx / 2
  let ay := ky / 2
  let s := (List.range ky).foldl
    (fun acc j =>
      (List.range kx).foldl
        (fun acc2 i =>
          acc2 + getPx g (reflect101 w ((x : Int) + (i : Int) - (ax : Int)))
                         (reflect101 h ((y : Int) + (j : Int) - (ay : Int))))
        acc)
    0
  natRoundHalfEven s (kx * ky)

/-- `cv2.blur(g, (kx, ky))`. -/
def blur (g : Grid) (kx ky : Nat) : Grid :=
  mkGrid (gridW g) (gridH g) (blurPx g (gridW g) (gridH g) kx ky)

/-! `cv2.threshold(g, base, 255, THRESH_BINARY_INV | THRESH_OTSU)`.
With the OTSU flag the `base` threshold argument is ignored and the cut is
computed from the histogram by maximizing the between-class variance.  The
selection loop of OpenCV (`getThreshVal_Otsu_8u`) is modelled with exact
arithmetic: `q1 = S/T`, `mu1 = A/S`, `mu2 = (M-A)/(T-S)` and
`sigma = (A*(T-S) - (M-A)*S)^2 / (T^2 * S * (T-S))`; the `FLT_EPSILON`
guards become integer comparisons against `2^23`. -/

/-- Histogram of a byte-valued grid over the 256 bins. -/
def histogram (g : Grid) : List Nat :=
  (List.range 256).map fun v => g.foldl (fun acc row => acc + row.count v) 0

/-- Force a natural number to a literal before continuing (an explicit
strictness combinator: `Nat.casesOn` makes the kernel evaluate `n` once
instead of re-evaluating a duplicated thunk at every use site).  Semantically
`forceN n k = k n`. -/
def forceN (n : Nat) (k : Nat → α) : α := Nat.casesOn n (k 0) fun m => k (m + 1)

/-- The Otsu selection loop over the bins `(i, hist[i])`, carrying the
cumulative mass `S`, the cumulative first moment `A`, and the best bin so far
as `(bv, bn, bd)` with `bn / bd` the (scaled) largest between-class variance
reached.  Bins where either class mass would be below `FLT_EPSILON = 2^-23`
are skipped, exactly as in `getThreshVal_Otsu_8u`. -/
def otsuLoop (T M : Nat) : List (Nat × Nat) → Nat → Nat → Nat → Nat → Nat → Nat
  | [], _, _, bv, _, _ => bv
  | b :: rest, S, A, bv, bn, bd =>
    forceN (S + b.2) fun S' =>
    forceN (A + b.1 * b.2) fun A' =>
    forceN (T - S') fun R' =>
    if 8388608 * Nat.min S' R' < T ∨ 8388607 * T < 8388608 * Nat.max S' R' then
      otsuLoop T M rest S' A' bv bn bd
    else
      forceN ((((A' * R' : Nat) : Int) - (((M - A') * S' : Nat) : Int)).natAbs) fun na =>
      forceN (na * na) fun n2 =>
      forceN (S' * R') fun den =>
      if bn * den < n2 * bd then otsuLoop T M rest S' A' b.1 n2 den
      else otsuLoop T M rest S' A' bv bn bd

/-- Otsu threshold of a histogram (largest between-class variance, first
maximizer, skipping bins where either class mass is below `FLT_EPSILON`). -/
def otsuThreshold (hist : List Nat) : Nat :=
  forceN (hist.foldl (· + ·) 0) fun T =>
  forceN ((List.range 256).foldl (fun acc i => acc + i * hist.getD i 0) 0) fun M =>
  otsuLoop T M ((List.range 256).map fun i => (i, hist.getD i 0)) 0 0 0 0 1

/-- `cv2.threshold(g, base, 255, THRESH_BINARY_INV | THRESH_OTSU)`; the
`base` argument is accepted and ignored, exactly as OpenCV does with the
OTSU flag set. -/
def thresholdOtsuInv (g : Grid) (base : Int) : Grid :=
  let t := otsuThreshold (histogram g)
  g.map (List.map (fun v => if t < v then 0 else 255))

/-! Morphology.  The source passes plain tuples such as `(3, 2)` as kernels;
the Python bindings convert them to a 2×1 column matrix whose entries are the
tuple values.  The structuring element is the set of nonzero entries of that
matrix, anchored at its centre `(0, 1)`, so (for nonzero entries) erosion
takes the minimum of the pixel and its upper neighbour and dilation the
maximum of the pixel and its lower neighbour.  Out-of-range samples use the
morphological border value (255 for erosion, 0 for dilation). -/

/-- One pixel of `cv2.erode(g, (a, b))`. -/
def erodePx (a b : Int) (g : Grid) (x y : Nat) : Nat :=
  Nat.min (if a ≠ 0 then (if 1 ≤ y then getPx g x (y - 1) else 255) else 255)
          (if b ≠ 0 then getPx g x y else 255)

/-- `cv2.erode(g, (a, b), iterations=1)`. -/
def erodeK (a b : Int) (g : Grid) : Grid :=
  mkGrid (gridW g) (gridH g) (erodePx a b g)

/-- One pixel of `cv2.dilate(g, (a, b))` (the kernel is mirrored, so the
first entry looks at the lower neighbour). -/
def dilatePx (a b : Int) (g : Grid) (x y : Nat) : Nat :=
  Nat.max (if a ≠ 0 then getPx g x (y + 1) else 0)
          (if b ≠ 0 then getPx g x y else 0)

/-- `cv2.dilate(g, (a, b), iterations=1)`. -/
def dilateK (a b : Int) (g : Grid) : Grid :=
  mkGrid (gridW g) (gridH g) (dilatePx a b g)

/-! Pixelwise bitwise operations (`cv2.bitwise_and`, `cv2.bitwise_or`). -/

/-- `cv2.bitwise_and` of two single-channel images of equal shape. -/
def bitwiseAndG (g1 g2 : Grid) : Grid :=
  g1.zipWith (fun r1 r2 => r1.zipWith Nat.land r2) g2

/-- `cv2.bitwise_or` of two single-channel images of equal shape. -/
def bitwiseOrG (g1 g2 : Grid) : Grid :=
  g1.zipWith (fun r1 r2 => r1.zipWith Nat.lor r2) g2

/-- `cv2.bitwise_and(image, mask_bgr)` where `mask_bgr` replicates a
single-channel mask into all three channels. -/
def maskedImage (img : CImg) (mask : Grid) : CImg :=
  img.zipWith
    (fun row mrow => row.zipWith
      (fun p m => (p.1.land m, p.2.1.land m, p.2.2.land m)) mrow)
    mask

/-- The all-zero `w × h` grid (`np.zeros`). -/
def zerosGrid (w h : Nat) : Grid := mkGrid w h (fun _ _ => 0)

/-! `cv2.floodFill(image, mask, seed, newVal, thr, thr, FLOODFILL_FIXED_RANGE)`
with default 4-connectivity.  With the fixed-range flag a pixel belongs to the
fill exactly when it is 4-connected to the seed through pixels whose colour is
within `±thr` per channel of the seed's own colour.  The model computes the
set of filled pixels by breadth-first search (the set, hence the bounding
rectangle, does not depend on the traversal order). -/

/-- Fixed-range colour test: is the pixel at `(x, y)` within `±thr` of the
seed colour in every channel? -/
def ffInRange (img : CImg) (seed : BGR) (thr : Int) (x y : Nat) : Bool :=
  let p := getC img x y
  decide ((seed.1 : Int) - thr ≤ (p.1 : Int) ∧ (p.1 : Int) ≤ (seed.1 : Int) + thr ∧
          (seed.2.1 : Int) - thr ≤ (p.2.1 : Int) ∧ (p.2.1 : Int) ≤ (seed.2.1 : Int) + thr ∧
          (seed.2.2 : Int) - thr ≤ (p.2.2 : Int) ∧ (p.2.2 : Int) ≤ (seed.2.2 : Int) + thr)

/-- In-bounds 4-neighbours of a pixel. -/
def ffNeighbors (w h : Nat) (p : Nat × Nat) : List (Nat × Nat) :=
  (if p.1 + 1 < w then [(p.1 + 1, p.2)] else []) ++
  (if 1 ≤ p.1 then [(p.1 - 1, p.2)] else []) ++
  (if p.2 + 1 < h then [(p.1, p.2 + 1)] else []) ++
  (if 1 ≤ p.2 then [(p.1, p.2 - 1)] else [])

/-- One breadth-first expansion step: `(visited, frontier)` to
`(visited ++ new, new)`. -/
def ffStep (ok : Nat → Nat → Bool) (w h : Nat)
    (st : List (Nat × Nat) × List (Nat × Nat)) :
    List (Nat × Nat) × List (Nat × Nat) :=
  let nbs := st.2.foldl
    (fun acc p =>
      (ffNeighbors w h p).foldl
        (fun acc2 q =>
          if ok q.1 q.2 ∧ ¬ st.1.contains q ∧ ¬ acc2.contains q then acc2 ++ [q]
          else acc2)
        acc)
    []
  (st.1 ++ nbs, nbs)

/-- Iterate a function `n` times. -/
def iterN (f : α → α) : Nat → α → α
  | 0, a => a
  | n + 1, a => iterN f n (f a)

/-- The set of pixels filled by `cv2.floodFill` from seed `(sx, sy)`
(`w * h` BFS rounds always suffice to exhaust the component). -/
def floodFillSet (img : CImg) (w h sx sy : Nat) (thr : Int) : List (Nat × Nat) :=
  let ok := ffInRange img (getC img sx sy) thr
  if ok sx sy then (iterN (ffStep ok w h) (w * h) ([(sx, sy)], [(sx, sy)])).1
  else []

/-- Bounding rectangle of a pixel set (the `rect` returned by
`cv2.floodFill`); the empty set yields the zero rectangle. -/
def rectOfPoints : List (Nat × Nat) → Rect
  | [] => ⟨0, 0, 0, 0⟩
  | p :: ps =>
    let b := ps.foldl
      (fun acc q => (Nat.min acc.1 q.1, Nat.min acc.2.1 q.2,
                     Nat.max acc.2.2.1 q.1, Nat.max acc.2.2.2 q.2))
      (p.1, p.2, p.1, p.2)
    ⟨b.1, b.2.1, b.2.2.1 - b.1 + 1, b.2.2.2 - b.2.1 + 1⟩

/-! `cv2.groupRectangles(rects, gThr, eps)`.  The clusterer partitions the
rectangle list into the connected components of the `SimilarRects` relation
(`partition` assigns class labels in order of each component's first
occurrence, i.e. of its smallest index), averages each class with
round-half-to-even, drops classes with at most `gThr` members and finally
drops a class contained, up to an `eps`-margin, in another surviving class.
`eps` is a percentage here (the Python passes `rects_group_eps / 100`);
`SimilarRects` compares `|d| ≤ eps * (min w + min h) * 0.5`, written below as
`200 * |d| ≤ epsPct * (min w + min h)`. -/

/-- The `SimilarRects(eps)` predicate with `eps = epsPct / 100`. -/
def similarRects (epsPct : Int) (a b : Rect) : Bool :=
  let s : Int := epsPct * ((Nat.min a.w b.w : Nat) + (Nat.min a.h b.h : Nat))
  decide (200 * (((a.x : Int) - (b.x : Int)).natAbs : Int) ≤ s ∧
          200 * (((a.y : Int) - (b.y : Int)).natAbs : Int) ≤ s ∧
          200 * ((((a.x + a.w : Nat) : Int) - ((b.x + b.w : Nat) : Int)).natAbs : Int) ≤ s ∧
          200 * ((((a.y + a.h : Nat) : Int) - ((b.y + b.h : Nat) : Int)).natAbs : Int) ≤ s)

/-- One step of the reachability closure over indices `0..n-1`. -/
def reachStep (adj : Nat → Nat → Bool) (n : Nat) (cur : List Nat) : List Nat :=
  (List.range n).foldl
    (fun acc j =>
      if acc.contains j then acc
      else if acc.any (fun i => adj i j || adj j i) then acc ++ [j]
      else acc)
    cur

/-- Indices connected to `i` in the similarity graph. -/
def reachFrom (adj : Nat → Nat → Bool) (n i : Nat) : List Nat :=
  iterN (reachStep adj n) n [i]

/-- `cv2.groupRectangles(rs, gThr, eps = epsPct / 100)`. -/
def groupRectanglesModel (rs : List Rect) (gThr : Int) (epsPct : Int) : List Rect :=
  if gThr ≤ 0 ∨ rs = [] then rs
  else
    let n := rs.length
    let adj := fun i j =>
      decide (¬ i = j) && similarRects epsPct (rs.getD i default) (rs.getD j default)
    let rep := fun i => (reachFrom adj n i).foldl Nat.min i
    let roots := (List.range n).filter (fun i => rep i = i)
    let classes := roots.map (fun r0 => (List.range n).filter (fun i => rep i = r0))
    let rrects := classes.map (fun mem =>
      let sx := mem.foldl (fun acc i => acc + (rs.getD i default).x) 0
      let sy := mem.foldl (fun acc i => acc + (rs.getD i default).y) 0
      let sw := mem.foldl (fun acc i => acc + (rs.getD i default).w) 0
      let sh := mem.foldl (fun acc i => acc + (rs.getD i default).h) 0
      (Rect.mk (natRoundHalfEven sx mem.length) (natRoundHalfEven sy mem.length)
               (natRoundHalfEven sw mem.length) (natRoundHalfEven sh mem.length),
       mem.length))
    (List.range rrects.length).foldl
      (fun out i =>
        let r1 : Rect := (rrects.getD i (default, 0)).1
        let n1 : Nat := (rrects.getD i (default, 0)).2
        if (n1 : Int) ≤ gThr then out
        else
          let blocked := (List.range rrects.length).any (fun j =>
            let r2 : Rect := (rrects.getD j (default, 0)).1
            let n2 : Nat := (rrects.getD j (default, 0)).2
            let dx := intRoundHalfEven ((r2.w : Int) * epsPct) 100
            let dy := intRoundHalfEven ((r2.h : Int) * epsPct) 100
            decide (¬ j = i ∧ gThr < (n2 : Int) ∧
              (r2.x : Int) - dx ≤ (r1.x : Int) ∧
              (r2.y : Int) - dy ≤ (r1.y : Int) ∧
              ((r1.x + r1.w : Nat) : Int) ≤ ((r2.x + r2.w : Nat) : Int) + dx ∧
              ((r1.y + r1.h : Nat) : Int) ≤ ((r2.y + r2.h : Nat) : Int) + dy ∧
              (Nat.max 3 n1 < n2 ∨ n1 < 3)))
          if blocked then out else out ++ [r1])
      []

/-! Cropping (`mask[y:y+h, x:x+w]`, numpy slices truncate at the image
border) and `cv2.resize(·, (ow, oh), interpolation=INTER_NEAREST)`. -/

/-- `g[r.y : r.y + r.h, r.x : r.x + r.w]`. -/
def cropGrid (g : Grid) (r : Rect) : Grid :=
  ((g.drop r.y).take r.h).map (fun row => (row.drop r.x).take r.w)

/-- Nearest-neighbour resize: destination pixel `(x, y)` samples source pixel
`(min(x * sw / ow, sw - 1), min(y * sh / oh, sh - 1))`. -/
def resizeNearest (g : Grid) (ow oh : Nat) : Grid :=
  let sw := gridW g
  let sh := gridH g
  mkGrid ow oh fun x y =>
    getPx g (Nat.min (x * sw / ow) (sw - 1)) (Nat.min (y * sh / oh) (sh - 1))

/-! Parameters.  `PARAMS_DEFAULT` is the module-level 14-key table; a caller
dictionary is resolved by inserting every absent default key (the Python
mutates the caller's dictionary in place, modelled here by returning the
updated association list).  The pipeline itself reads 13 of the 14 keys;
`group_threshold` is never read. -/

/-- A parameter dictionary, as the Python `dict[str, int]`: an association
list looked up by first match, with insertion appending at the end. -/
abbrev PDict := List (String × Int)

/-- The module-level default parameter table, in source order. -/
def PARAMS_DEFAULT : PDict :=
  [("no_background_mask_blur_kernel_x", 3),
   ("no_background_mask_blur_kernel_y", 3),
   ("no_background_mask_threshold", 180),
   ("no_background_mask_erode_kernel_x", 3),
   ("no_background_mask_erode_kernel_y", 2),
   ("floodfill_threshold", 39),
   ("group_threshold", 2),
   ("min_character_width", 34),
   ("max_character_width", 110),
   ("min_character_height", 34),
   ("max_character_height", 110),
   ("min_pixel_density", 12),
   ("rects_group_threshold", 2),
   ("rects_group_eps", 45)]

/-- Lines 79–84 of the source: `None` becomes the default table, otherwise
every default key absent from the caller's dictionary is inserted with its
default value (the caller's dictionary is updated in place). -/
def resolveParams : Option PDict → PDict
  | none => PARAMS_DEFAULT
  | some d =>
    PARAMS_DEFAULT.foldl
      (fun acc kv => if (acc.lookup kv.1).isSome then acc else acc ++ [kv]) d

/-- `params[k]` on a resolved dictionary (every key read by the pipeline is
present after resolution). -/
def getParam (d : PDict) (k : String) : Int := (d.lookup k).getD 0

/-- The 13 parameter values the pipeline actually reads (every default key
except `group_threshold`). -/
structure RParams where
  blurKx : Int
  blurKy : Int
  maskThreshBase : Int
  erodeKx : Int
  erodeKy : Int
  ffThr : Int
  minW : Int
  maxW : Int
  minH : Int
  maxH : Int
  minDensity : Int
  rgThr : Int
  rgEps : Int
  deriving DecidableEq, Repr

/-- Read the 13 consumed keys out of a resolved dictionary. -/
def readParams (d : PDict) : RParams where
  blurKx := getParam d "no_background_mask_blur_kernel_x"
  blurKy := getParam d "no_background_mask_blur_kernel_y"
  maskThreshBase := getParam d "no_background_mask_threshold"
  erodeKx := getParam d "no_background_mask_erode_kernel_x"
  erodeKy := getParam d "no_background_mask_erode_kernel_y"
  ffThr := getParam d "floodfill_threshold"
  minW := getParam d "min_character_width"
  maxW := getParam d "max_character_width"
  minH := getParam d "min_character_height"
  maxH := getParam d "max_character_height"
  minDensity := getParam d "min_pixel_density"
  rgThr := getParam d "rects_group_threshold"
  rgEps := getParam d "rects_group_eps"

/-! The pipeline stages of `extract_characters`, in source order. -/

/-- Lines 123–130: gray, blur, inverted Otsu threshold, erode. -/
def noBackgroundMaskOf (image : CImg) (P : RParams) : Grid :=
  erodeK P.erodeKx P.erodeKy
    (thresholdOtsuInv
      (blur (cvtColorGray image) P.blurKx.toNat P.blurKy.toNat)
      P.maskThreshBase)

/-- Lines 133–134: the background-removed colour image. -/
def maskedImageOf (image : CImg) (P : RParams) : CImg :=
  maskedImage image (noBackgroundMaskOf image P)

/-- The flood-fill mask of the seed at `(x, h/2)`, as handed on by the
source: `floodfill_mask[:-2, :-2] * 255` is the `(h+2) × (w+2)` flood-fill
mask (whose pixel `(x+1, y+1)` marks filled image pixel `(x, y)`) cropped to
its FIRST `h` rows and `w` columns, i.e. the fill shifted by `(+1, +1)`. -/
def shiftedFillMask (w h : Nat) (fs : List (Nat × Nat)) : Grid :=
  mkGrid w h fun px py =>
    if 1 ≤ px ∧ 1 ≤ py ∧ (px - 1, py - 1) ∈ fs then 255 else 0

/-- Lines 151–168: the candidate produced at scan column `x`, when the
middle-row mask pixel there is set: flood fill the masked image from
`(x, h/2)`, take the (shifted) fill mask, intersect it with the
background-removal mask, and keep the fill's bounding rectangle. -/
def candidateAt (imgMasked : CImg) (noBg : Grid) (w h : Nat) (thr : Int)
    (x : Nat) : Option (Grid × Rect) :=
  if getPx noBg x (h / 2) ≠ 0 then
    let fs := floodFillSet imgMasked w h x (h / 2) thr
    some (bitwiseAndG (shiftedFillMask w h fs) noBg, rectOfPoints fs)
  else none

/-- The set of pixels filled by the flood fill seeded at `(x, h/2)`. -/
def fillSetOf (image : CImg) (P : RParams) (x : Nat) : List (Nat × Nat) :=
  floodFillSet (maskedImageOf image P) (imgW image) (imgH image) x (imgH image / 2) P.ffThr

/-- The candidate at scan column `x` of the full pipeline. -/
def candidateAtOf (image : CImg) (P : RParams) (x : Nat) : Option (Grid × Rect) :=
  candidateAt (maskedImageOf image P) (noBackgroundMaskOf image P)
    (imgW image) (imgH image) P.ffThr x

/-- `cv2.countNonZero(cm[r.y : r.y + r.h, r.x : r.x + r.w])`. -/
def countNonZeroRect (cm : Grid) (r : Rect) : Nat :=
  (List.range r.h).foldl
    (fun acc dy =>
      (List.range r.w).foldl
        (fun acc2 dx => if getPx cm (r.x + dx) (r.y + dy) ≠ 0 then acc2 + 1 else acc2)
        acc)
    0

/-- Lines 171–186: the candidate filter.  A candidate is kept when its
rectangle is within the size window (inclusive), it has a nonzero pixel
count inside the rectangle and the density `pixels / (w * h) * 100` is not
below `min_pixel_density` (an exact-arithmetic comparison, written
cross-multiplied). -/
def acceptCand (P : RParams) (cm : Grid) (r : Rect) : Bool :=
  if P.minW ≤ (r.w : Int) ∧ (r.w : Int) ≤ P.maxW ∧
     P.minH ≤ (r.h : Int) ∧ (r.h : Int) ≤ P.maxH then
    let pixels := countNonZeroRect cm r
    if pixels = 0 then false
    else decide (¬ ((100 * pixels : Nat) : Int) < P.minDensity * ((r.w * r.h : Nat) : Int))
  else false

/-- Lines 146–200: the scan across the middle row, accumulating the merged
character mask (via bitwise or) and the accepted rectangles (in scan
order). -/
def scanLoop (imgMasked : CImg) (noBg : Grid) (w h : Nat) (P : RParams) :
    Grid × List Rect :=
  (List.range w).foldl
    (fun acc x =>
      match candidateAt imgMasked noBg w h P.ffThr x with
      | none => acc
      | some cr =>
        if acceptCand P cr.1 cr.2 then (bitwiseOrG cr.1 acc.1, acc.2 ++ [cr.2])
        else acc)
    (zerosGrid w h, [])

/-- The scan of the full pipeline (the mask and the masked image are computed
once, before the loop, as in the source). -/
def scanOf (image : CImg) (P : RParams) : Grid × List Rect :=
  scanLoop (maskedImageOf image P) (noBackgroundMaskOf image P)
    (imgW image) (imgH image) P

/-- The accepted rectangle list of the scan. -/
def rectsOf (image : CImg) (P : RParams) : List Rect := (scanOf image P).2

/-- The aggregated character mask of the scan. -/
def aggMaskOf (image : CImg) (P : RParams) : Grid := (scanOf image P).1

/-- Lines 207–209: `cv2.groupRectangles(rects, rects_group_threshold,
eps=rects_group_eps / 100)`. -/
def groupedOf (image : CImg) (P : RParams) : List Rect :=
  groupRectanglesModel (rectsOf image P) P.rgThr P.rgEps

/-- Lines 212–213: one dilation then one erosion with the fixed `(3, 3)`
kernel. -/
def refineMask (g : Grid) : Grid := erodeK 3 3 (dilateK 3 3 g)

/-- The refined aggregate mask. -/
def refinedOf (image : CImg) (P : RParams) : Grid :=
  refineMask (aggMaskOf image P)

/-- Lines 234–239: crop one grouped rectangle out of the refined mask and
resize it when both output dimensions were requested. -/
def charOfRect (image : CImg) (P : RParams) (ow oh : Option Nat) (r : Rect) : Grid :=
  let c := cropGrid (refinedOf image P) r
  match ow, oh with
  | some w', some h' => resizeNearest c w' h'
  | _, _ => c

/-- Does a requested output dimension strictly exceed the image dimension? -/
def sizeExceeds (o : Option Nat) (n : Nat) : Bool := o.any (fun k => n < k)

/-- `extract_characters` after parameter resolution: the output-size check
(lines 90–93), the scan, the empty-rectangle early exit (lines 202–204),
grouping, mask refinement and cropping. -/
def extractCore (image : CImg) (ow oh : Option Nat) (P : RParams) :
    Except String (List Grid) :=
  if sizeExceeds ow (imgW image) then
    .error "output_width must be less or equal to the image width"
  else if sizeExceeds oh (imgH image) then
    .error "output_height must be less or equal to the image height"
  else if rectsOf image P = [] then .ok []
  else .ok ((groupedOf image P).map (charOfRect image P ow oh))

/-- `extract_characters(image, output_width, output_height, debug=False,
params)`: resolve the parameters, then run the pipeline (the `debug` branch
only renders visualizations and never changes the result). -/
def extract_characters (image : CImg) (ow oh : Option Nat)
    (params : Option PDict) : Except String (List Grid) :=
  extractCore image ow oh (readParams (resolveParams params))

/-! The raising cv2 calls.  The size guard of lines 90–93 is not the only
way `extract_characters` can raise: the OpenCV primitives validate their
arguments and raise `cv2.error` on degenerate values the guard admits.
`cv2.cvtColor` (line 123) asserts a nonempty source image, `cv2.blur`
(line 125) a positive kernel size, `cv2.floodFill` (lines 157–165)
non-negative lo/up thresholds, and `cv2.resize` (line 238) a nonempty
target size.  (`cv2.erode`/`cv2.dilate` accept any tuple kernel with a
nonzero entry — the entries only shape the structuring element — and the
remaining calls are total on the values the pipeline can hand them.)
`extractCharsE` extends `extractCore` with these raise points, in source
order; requested sizes are naturals here, and a negative Python value
behaves like the excluded value 0 (both make `cv2.resize` raise). -/

/-- Does the requested output size make `cv2.resize` raise?  Line 237
resizes only when both dimensions are requested; a zero dimension then
makes the target size empty and line 238 raises. -/
def resizeRaises (ow oh : Option Nat) : Bool :=
  match ow, oh with
  | some w', some h' => w' == 0 || h' == 0
  | _, _ => false

/-- Is there a seed on the middle row (line 152)?  At the first seed the
scan calls `cv2.floodFill`, which raises when the threshold parameter is
negative. -/
def hasSeed (image : CImg) (P : RParams) : Bool :=
  (List.range (imgW image)).any fun x =>
    getPx (noBackgroundMaskOf image P) x (imgH image / 2) != 0

/-- `extractCore` with the raising cv2 calls made explicit, in source
order: the size guard, then `cv2.cvtColor` on an empty image, `cv2.blur`
on a nonpositive kernel, `cv2.floodFill` on a negative threshold (only
reached when the scan meets a seed), and `cv2.resize` on a zero requested
dimension (only reached when a grouped rectangle is cropped). -/
def extractCharsE (image : CImg) (ow oh : Option Nat) (P : RParams) :
    Except String (List Grid) :=
  if sizeExceeds ow (imgW image) then
    .error "output_width must be less or equal to the image width"
  else if sizeExceeds oh (imgH image) then
    .error "output_height must be less or equal to the image height"
  else if imgW image = 0 ∨ imgH image = 0 then
    .error "cv2.cvtColor: the source image must not be empty"
  else if P.blurKx ≤ 0 ∨ P.blurKy ≤ 0 then
    .error "cv2.blur: the kernel size must be positive"
  else if P.ffThr < 0 ∧ hasSeed image P = true then
    .error "cv2.floodFill: lo_diff and up_diff must be non-negative"
  else if rectsOf image P = [] then .ok []
  else if resizeRaises ow oh = true ∧ groupedOf image P ≠ [] then
    .error "cv2.resize: dsize must not be empty"
  else .ok ((groupedOf image P).map (charOfRect image P ow oh))

/-- `extract_characters` with the raising cv2 calls made explicit. -/
def extract_charactersE (image : CImg) (ow oh : Option Nat)
    (params : Option PDict) : Except String (List Grid) :=
  extractCharsE image ow oh (readParams (resolveParams params))

/-! Concrete test inputs used by the witnesses and counterexamples below. -/

/-- A gray BGR pixel of intensity `v`. -/
def pxOf (v : Nat) : BGR := (v, v, v)

/-- A uniform 4×4 image of intensity 100: all background, no candidate
region survives. -/
def imgConst : CImg := List.replicate 4 (List.replicate 4 (pxOf 100))

/-- A 10×6 image with two glyphs crossing the middle row: a dark 2×3 block
(intensity 60) at columns 4–5, and a lighter glyph (intensity 140) whose body
sits at columns 7–8 but whose two top rows stretch left to column 2.  The
scan meets the dark block first although the lighter glyph's bounding
rectangle starts further left. -/
def imgTwo : CImg :=
  let u := pxOf 255
  let a := pxOf 60
  let b := pxOf 140
  [[u, u, b, b, b, b, b, b, b, u],
   [u, u, b, b, b, b, b, b, b, u],
   [u, u, u, u, a, a, u, b, b, u],
   [u, u, u, u, a, a, u, b, b, u],
   [u, u, u, u, a, a, u, b, b, u],
   [u, u, u, u, u, u, u, u, u, u]]

/-- Parameters used with `imgTwo`: no blur, wide-open size and density
window, and `rects_group_threshold = 0` (with a nonpositive threshold
`cv2.groupRectangles` returns its input list unchanged). -/
def paramsTwo : PDict :=
  [("no_background_mask_blur_kernel_x", 1),
   ("no_background_mask_blur_kernel_y", 1),
   ("min_character_width", 1),
   ("max_character_width", 20),
   ("min_character_height", 1),
   ("max_character_height", 20),
   ("min_pixel_density", 1),
   ("rects_group_threshold", 0)]

/-- The resolved parameter record for `imgTwo`. -/
def RPTwo : RParams := readParams (resolveParams (some paramsTwo))

/-- The gray conversion of `imgTwo`. -/
def grayTwo : Grid :=
  [[255, 255, 140, 140, 140, 140, 140, 140, 140, 255],
   [255, 255, 140, 140, 140, 140, 140, 140, 140, 255],
   [255, 255, 255, 255, 60, 60, 255, 140, 140, 255],
   [255, 255, 255, 255, 60, 60, 255, 140, 140, 255],
   [255, 255, 255, 255, 60, 60, 255, 140, 140, 255],
   [255, 255, 255, 255, 255, 255, 255, 255, 255, 255]]

/-- The background-removal mask of `imgTwo` (Otsu threshold 140, and the
erosion happens to leave this particular thresholded mask unchanged). -/
def nbTwo : Grid :=
  [[0, 0, 255, 255, 255, 255, 255, 255, 255, 0],
   [0, 0, 255, 255, 255, 255, 255, 255, 255, 0],
   [0, 0, 0, 0, 255, 255, 0, 255, 255, 0],
   [0, 0, 0, 0, 255, 255, 0, 255, 255, 0],
   [0, 0, 0, 0, 255, 255, 0, 255, 255, 0],
   [0, 0, 0, 0, 0, 0, 0, 0, 0, 0]]

/-- The background-removed colour image of `imgTwo`. -/
def miTwo : CImg :=
  let z : BGR := (0, 0, 0)
  let a : BGR := (60, 60, 60)
  let b : BGR := (140, 140, 140)
  [[z, z, b, b, b, b, b, b, b, z],
   [z, z, b, b, b, b, b, b, b, z],
   [z, z, z, z, a, a, z, b, b, z],
   [z, z, z, z, a, a, z, b, b, z],
   [z, z, z, z, a, a, z, b, b, z],
   [z, z, z, z, z, z, z, z, z, z]]

/-- The aggregated character mask of the scan over `imgTwo` (visibly shifted
down-right by one pixel relative to the glyphs, the effect of the
`[:-2, :-2]` slice). -/
def aggTwo : Grid :=
  [[0, 0, 0, 0, 0, 0, 0, 0, 0, 0],
   [0, 0, 0, 255, 255, 255, 255, 255, 255, 0],
   [0, 0, 0, 0, 255, 255, 0, 255, 255, 0],
   [0, 0, 0, 0, 0, 255, 0, 0, 255, 0],
   [0, 0, 0, 0, 0, 255, 0, 0, 255, 0],
   [0, 0, 0, 0, 0, 0, 0, 0, 0, 0]]

/-- The accepted rectangles of the scan over `imgTwo`: the dark block's
rectangle (x = 4) twice, then the wider glyph's rectangle (x = 2) twice. -/
def rectsTwo : List Rect := [⟨4, 2, 2, 3⟩, ⟨4, 2, 2, 3⟩, ⟨2, 0, 7, 5⟩, ⟨2, 0, 7, 5⟩]

/-- The resolved parameter record of `paramsTwo`, written out. -/
def RPTwoLit : RParams := ⟨1, 1, 180, 3, 2, 39, 1, 20, 1, 20, 1, 0, 45⟩

/-! Derived stage views used to state the filter-stage claims. -/

/-- The stream of candidates produced by the scan (one per set middle-row
mask pixel), before filtering. -/
def candidatesOf (imgMasked : CImg) (noBg : Grid) (w h : Nat) (thr : Int) :
    List (Grid × Rect) :=
  (List.range w).filterMap (candidateAt imgMasked noBg w h thr)

/-- The candidates of the full pipeline that pass the filter stage. -/
def acceptedCandsOf (image : CImg) (P : RParams) : List (Grid × Rect) :=
  (candidatesOf (maskedImageOf image P) (noBackgroundMaskOf image P)
      (imgW image) (imgH image) P.ffThr).filter
    (fun c => acceptCand P c.1 c.2)

/-- One column of the mask refiner's dilation, as a function of the column
values `a` of a grid of height `h` (reads past the bottom give 0). -/
def colD (h : Nat) (a : Nat → Nat) : Nat → Nat :=
  fun y => if y < h then Nat.max (if y + 1 < h then a (y + 1) else 0) (a y) else 0

/-- One column of the mask refiner's erosion (the read past the top is the
erosion border value 255). -/
def colE (h : Nat) (b : Nat → Nat) : Nat → Nat :=
  fun y => if y < h then Nat.min (if 1 ≤ y then b (y - 1) else 255) (b y) else 0

/-- Every stored pixel of the grid is binary (0 or 255). -/
def AllBin (g : Grid) : Prop := ∀ row ∈ g, ∀ v ∈ row, v = 0 ∨ v = 255

/-- Every pixel read of the grid is binary (out-of-range reads give 0). -/
def BinGrid (g : Grid) : Prop := ∀ x y, getPx g x y = 0 ∨ getPx g x y = 255

/-- The refined aggregate mask of `imgTwo`. -/
def refTwo : Grid :=
  [[0, 0, 0, 255, 255, 255, 255, 255, 255, 0],
   [0, 0, 0, 255, 255, 255, 255, 255, 255, 0],
   [0, 0, 0, 0, 255, 255, 0, 255, 255, 0],
   [0, 0, 0, 0, 0, 255, 0, 0, 255, 0],
   [0, 0, 0, 0, 0, 255, 0, 0, 255, 0],
   [0, 0, 0, 0, 0, 0, 0, 0, 0, 0]]

/-- The candidate character mask produced at scan column 4 of `imgTwo`:
because of the one-pixel shift it holds only the two pixels `(5, 3)` and
`(5, 4)`, although six pixels are both filled and foreground. -/
def cmFour : Grid :=
  [[0, 0, 0, 0, 0, 0, 0, 0, 0, 0],
   [0, 0, 0, 0, 0, 0, 0, 0, 0, 0],
   [0, 0, 0, 0, 0, 0, 0, 0, 0, 0],
   [0, 0, 0, 0, 0, 255, 0, 0, 0, 0],
   [0, 0, 0, 0, 0, 255, 0, 0, 0, 0],
   [0, 0, 0, 0, 0, 0, 0, 0, 0, 0]]

/-- The four characters returned for `imgTwo` with output size `(3, 3)`. -/
def csThreeTwo : List Grid :=
  [[[255, 255, 255], [0, 0, 255], [0, 0, 255]],
   [[255, 255, 255], [0, 0, 255], [0, 0, 255]],
   [[0, 255, 255], [0, 255, 255], [0, 0, 0]],
   [[0, 255, 255], [0, 255, 255], [0, 0, 0]]]

/-- `RPTwoLit` with `min_pixel_density` raised to 30 (both glyphs still
pass); used to instantiate the filter monotonicity claim. -/
def RPTwoDense : RParams := ⟨1, 1, 180, 3, 2, 39, 1, 20, 1, 20, 30, 0, 45⟩

/-- The resolved default parameter record. -/
def RPConst : RParams := readParams (resolveParams none)

/-- The gray conversion of `imgConst`. -/
def grayConst : Grid := List.replicate 4 (List.replicate 4 100)

/-! Evaluation helpers and staged concrete computations. -/

/-- Semantically `forceN n k = k n`. -/
theorem forceN_eq (n : Nat) (k : Nat → α) : forceN n k = k n := by
  cases n <;> rfl

/-- Staged evaluation: the resolved parameters of `paramsTwo`. -/
theorem RPTwo_eval : RPTwo = RPTwoLit := by decide

/-- Staged evaluation: the background-removal mask of `imgTwo`. -/
theorem two_mask_eval : noBackgroundMaskOf imgTwo RPTwo = nbTwo := by
  have hgray : cvtColorGray imgTwo = grayTwo := by decide
  have hotsu : otsuThreshold (histogram grayTwo) = 140 := by decide
  rw [noBackgroundMaskOf, RPTwo_eval]
  show erodeK 3 2 (thresholdOtsuInv (blur (cvtColorGray imgTwo) 1 1) 180) = nbTwo
  rw [hgray, show blur grayTwo 1 1 = grayTwo from by decide]
  rw [thresholdOtsuInv]
  simp only [hotsu]
  decide

/-- Staged evaluation: the background-removed image of `imgTwo`. -/
theorem two_masked_eval : maskedImageOf imgTwo RPTwo = miTwo := by
  rw [maskedImageOf, two_mask_eval]
  decide

/-- Staged evaluation: the scan over `imgTwo`. -/
theorem two_scan_eval : scanOf imgTwo RPTwo = (aggTwo, rectsTwo) := by
  rw [scanOf, two_mask_eval, two_masked_eval]
  show scanLoop miTwo nbTwo 10 6 RPTwo = (aggTwo, rectsTwo)
  rw [RPTwo_eval]
  decide

/-- Staged evaluation: the accepted rectangles of `imgTwo`. -/
theorem two_rects_eval : rectsOf imgTwo RPTwo = rectsTwo := by
  rw [rectsOf, two_scan_eval]

/-- Staged evaluation: with `rects_group_threshold = 0` the clusterer
returns the scan's rectangles unchanged. -/
theorem two_grouped_eval : groupedOf imgTwo RPTwo = rectsTwo := by
  rw [groupedOf, two_rects_eval, RPTwo_eval]
  decide

/-- Staged evaluation: the refined aggregate mask of `imgTwo`. -/
theorem two_refined_eval : refinedOf imgTwo RPTwo = refTwo := by
  rw [refinedOf, aggMaskOf, two_scan_eval]
  decide

/-- Staged evaluation: the candidate at scan column 4 of `imgTwo`. -/
theorem two_cand_eval :
    candidateAtOf imgTwo RPTwo 4 = some (cmFour, ⟨4, 2, 2, 3⟩) := by
  rw [candidateAtOf, two_mask_eval, two_masked_eval, RPTwo_eval]
  decide

/-- Staged evaluation: the resolved default parameters. -/
theorem RPConst_eval : RPConst = ⟨3, 3, 180, 3, 2, 39, 34, 110, 34, 110, 12, 2, 45⟩ := by
  decide

/-- Staged evaluation: the background-removal mask of the uniform image is
empty (the Otsu threshold of a one-bin histogram is 0 and every gray value
is above it). -/
theorem const_mask_eval : noBackgroundMaskOf imgConst RPConst = zerosGrid 4 4 := by
  have hgray : cvtColorGray imgConst = grayConst := by decide
  have hotsu : otsuThreshold (histogram grayConst) = 0 := by decide
  rw [noBackgroundMaskOf, RPConst_eval]
  show erodeK 3 2 (thresholdOtsuInv (blur (cvtColorGray imgConst) 3 3) 180) = zerosGrid 4 4
  rw [hgray, show blur grayConst 3 3 = grayConst from by decide]
  rw [thresholdOtsuInv]
  simp only [hotsu]
  decide

/-- Staged evaluation: no candidate rectangle survives on the uniform
image (there is no seed at all on the middle row). -/
theorem const_rects_eval : rectsOf imgConst RPConst = [] := by
  rw [rectsOf, scanOf, const_mask_eval]
  rw [show maskedImageOf imgConst RPConst =
        maskedImage imgConst (zerosGrid 4 4) from by rw [maskedImageOf, const_mask_eval]]
  rw [RPConst_eval]
  decide

/-! Pointwise access lemmas. -/

/-- `getD` through a map over `List.range`. -/
theorem getD_map_range {α : Type} (n : Nat) (f : Nat → α) (d : α) (i : Nat) :
    ((List.range n).map f).getD i d = if i < n then f i else d := by
  rcases Nat.lt_or_ge i n with h | h
  · rw [List.getD_eq_getElem?_getD, List.getElem?_map, List.getElem?_range h]
    simp [h]
  · rw [List.getD_eq_getElem?_getD, List.getElem?_map,
      show (List.range n)[i]? = none from by simp [List.getElem?_eq_none_iff, h]]
    simp [Nat.not_lt.mpr h]

/-- Reading a materialized grid: in range it returns the generating function,
out of range 0. -/
theorem getPx_mkGrid (w h : Nat) (f : Nat → Nat → Nat) (x y : Nat) :
    getPx (mkGrid w h f) x y = if x < w ∧ y < h then f x y else 0 := by
  unfold getPx mkGrid
  rw [show ((List.range h).map fun y => (List.range w).map fun x => f x y).getD y []
        = if y < h then (List.range w).map (fun x => f x y) else [] from
      getD_map_range h _ [] y]
  by_cases hy : y < h
  · rw [if_pos hy, getD_map_range]
    by_cases hx : x < w
    · rw [if_pos hx, if_pos ⟨hx, hy⟩]
    · rw [if_neg hx, if_neg (by tauto)]
  · rw [if_neg hy, if_neg (by tauto)]
    rfl

/-- The height of a materialized grid. -/
theorem gridH_mkGrid (w h : Nat) (f : Nat → Nat → Nat) : gridH (mkGrid w h f) = h := by
  simp [gridH, mkGrid]

/-- The width of a materialized grid with at least one row. -/
theorem gridW_mkGrid (w h : Nat) (f : Nat → Nat → Nat) (hh : 0 < h) :
    gridW (mkGrid w h f) = w := by
  cases h with
  | zero => omega
  | succ n => simp [gridW, mkGrid, List.range_succ_eq_map]

/-- Rows past the height read as 0. -/
theorem getPx_of_height_le (g : Grid) (x y : Nat) (hy : g.length ≤ y) :
    getPx g x y = 0 := by
  unfold getPx
  rw [show g.getD y [] = [] from by
    rw [List.getD_eq_getElem?_getD,
      show g[y]? = none from by simp [List.getElem?_eq_none_iff, hy]]
    rfl]
  rfl

/-- `land` with 0 on the left. -/
theorem land_zero_left (n : Nat) : Nat.land 0 n = 0 := Nat.zero_and n

/-- `land` with 0 on the right. -/
theorem land_zero_right (n : Nat) : Nat.land n 0 = 0 := Nat.and_zero n

/-- `bitwise_and` reads as the pointwise `land` (out-of-range reads are 0 and
`land` with 0 is 0, so no shape hypotheses are needed). -/
theorem getD_zipWith_land (r1 r2 : List Nat) (x : Nat) :
    (r1.zipWith Nat.land r2).getD x 0 = Nat.land (r1.getD x 0) (r2.getD x 0) := by
  induction r1 generalizing r2 x with
  | nil => simp [land_zero_left]
  | cons a r ih =>
    cases r2 with
    | nil => simp [land_zero_right]
    | cons b r2' =>
      cases x with
      | zero => simp
      | succ n => simpa using ih r2' n

/-- Pointwise reading of `bitwiseAndG`. -/
theorem getPx_bitwiseAndG (g1 g2 : Grid) (x y : Nat) :
    getPx (bitwiseAndG g1 g2) x y = Nat.land (getPx g1 x y) (getPx g2 x y) := by
  induction g1 generalizing g2 y with
  | nil => simp [bitwiseAndG, getPx, land_zero_left]
  | cons r g ih =>
    cases g2 with
    | nil => simp [bitwiseAndG, getPx, land_zero_right]
    | cons r2 g2' =>
      cases y with
      | zero => simpa [bitwiseAndG, getPx] using getD_zipWith_land r r2 x
      | succ n => simpa [bitwiseAndG, getPx] using ih g2' n

/-! The scan loop as filtering a candidate stream (lines 151–200 restated:
the loop appends the rectangle and ORs the mask exactly for the candidates
that pass `acceptCand`). -/

/-- Generalized unrolling of the scan fold. -/
theorem scanLoop_fold (mi : CImg) (nb : Grid) (w h : Nat) (P : RParams)
    (L : List Nat) (g : Grid) (rs : List Rect) :
    L.foldl
      (fun acc x =>
        match candidateAt mi nb w h P.ffThr x with
        | none => acc
        | some cr =>
          if acceptCand P cr.1 cr.2 then (bitwiseOrG cr.1 acc.1, acc.2 ++ [cr.2])
          else acc)
      (g, rs)
    = (((L.filterMap (candidateAt mi nb w h P.ffThr)).filter
          (fun c => acceptCand P c.1 c.2)).foldl (fun a c => bitwiseOrG c.1 a) g,
       rs ++ ((L.filterMap (candidateAt mi nb w h P.ffThr)).filter
          (fun c => acceptCand P c.1 c.2)).map (·.2)) := by
  induction L generalizing g rs with
  | nil => simp
  | cons x L ih =>
    simp only [List.foldl_cons, List.filterMap_cons]
    cases hc : candidateAt mi nb w h P.ffThr x with
    | none => simpa using ih g rs
    | some cr =>
      by_cases ha : acceptCand P cr.1 cr.2
      · simp [ha, ih, List.filter_cons]
      · simp [ha, ih, List.filter_cons]

/-- The scan's outputs, described through the candidate stream. -/
theorem scanLoop_eq (mi : CImg) (nb : Grid) (w h : Nat) (P : RParams) :
    scanLoop mi nb w h P
    = (((candidatesOf mi nb w h P.ffThr).filter
          (fun c => acceptCand P c.1 c.2)).foldl
        (fun a c => bitwiseOrG c.1 a) (zerosGrid w h),
       ((candidatesOf mi nb w h P.ffThr).filter
          (fun c => acceptCand P c.1 c.2)).map (·.2)) := by
  rw [scanLoop, candidatesOf, scanLoop_fold]
  simp

/-- The accepted rectangles are the rectangles of the accepted candidates. -/
theorem rectsOf_eq_accepted (image : CImg) (P : RParams) :
    rectsOf image P = (acceptedCandsOf image P).map (·.2) := by
  rw [rectsOf, scanOf, scanLoop_eq]
  rfl

/-! Claim theorems. -/

/-- C1: within the domain the OpenCV calls accept — a nonempty image,
positive blur-kernel parameters, an erode kernel with a nonzero entry, a
non-negative flood-fill threshold, and positive requested output dimensions
— the call reports an error exactly when a requested output width strictly
exceeds the image width or a requested output height strictly exceeds the
image height (so on any image of width 50 a requested `(64, 64)` output
fails), the error being the up-front size check's, raised before any
segmentation work; on that domain the raising model agrees with
`extract_characters`.  Outside it the guard also admits calls that raise
later (`cv2.resize` on a zero requested dimension, `cv2.blur` on a
nonpositive kernel), refuting the unconditional iff. -/
theorem C1_error_iff_size_exceeds_valid (image : CImg) (ow oh : Option Nat)
    (params : Option PDict)
    (hw : 1 ≤ imgW image) (hh : 1 ≤ imgH image)
    (hbx : 0 < (readParams (resolveParams params)).blurKx)
    (hby : 0 < (readParams (resolveParams params)).blurKy)
    (her : (readParams (resolveParams params)).erodeKx ≠ 0 ∨
      (readParams (resolveParams params)).erodeKy ≠ 0)
    (hff : 0 ≤ (readParams (resolveParams params)).ffThr)
    (how : ∀ w', ow = some w' → 1 ≤ w')
    (hoh : ∀ h', oh = some h' → 1 ≤ h') :
    ((∃ e, extract_charactersE image ow oh params = .error e) ↔
      sizeExceeds ow (imgW image) = true ∨ sizeExceeds oh (imgH image) = true) ∧
    extract_charactersE image ow oh params = extract_characters image ow oh params := by
  have h3 : ¬ (imgW image = 0 ∨ imgH image = 0) := by omega
  have h4 : ¬ ((readParams (resolveParams params)).blurKx ≤ 0 ∨
      (readParams (resolveParams params)).blurKy ≤ 0) := by omega
  have h5 : ¬ ((readParams (resolveParams params)).ffThr < 0 ∧
      hasSeed image (readParams (resolveParams params)) = true) := by
    intro hc
    exact absurd hc.1 (by omega)
  have h6 : resizeRaises ow oh = false := by
    rcases ow with _ | w' <;> rcases oh with _ | h'
    · rfl
    · rfl
    · rfl
    · have hw' := how w' rfl
      have hh' := hoh h' rfl
      simp [resizeRaises]
      omega
  have hagree : extract_charactersE image ow oh params =
      extract_characters image ow oh params := by
    unfold extract_charactersE extract_characters extractCharsE extractCore
    split_ifs <;> simp_all
  refine ⟨?_, hagree⟩
  rw [hagree]
  unfold extract_characters extractCore
  split_ifs with h1 h2 hr <;> simp_all

/-- C1 witness: the `(3, 3)` request on the two-glyph image satisfies every
validity hypothesis, the iff instance holds there, and the raising model
agrees with the total one. -/
theorem C1_witness :
    (1 ≤ imgW imgTwo ∧
      0 < (readParams (resolveParams (some paramsTwo))).blurKx ∧
      0 ≤ (readParams (resolveParams (some paramsTwo))).ffThr) ∧
    ((∃ e, extract_charactersE imgTwo (some 3) (some 3) (some paramsTwo) = .error e) ↔
      sizeExceeds (some 3) (imgW imgTwo) = true ∨
        sizeExceeds (some 3) (imgH imgTwo) = true) ∧
    extract_charactersE imgTwo (some 3) (some 3) (some paramsTwo) =
      extract_characters imgTwo (some 3) (some 3) (some paramsTwo) :=
  ⟨⟨by decide, by decide, by decide⟩,
   C1_error_iff_size_exceeds_valid imgTwo (some 3) (some 3) (some paramsTwo)
     (by decide) (by decide) (by decide) (by decide) (by decide) (by decide)
     (fun w' h => by cases h; decide) (fun h' h => by cases h; decide)⟩

/-- C1 counterexample: requesting output size `(0, 0)` on the two-glyph
image passes the size check — neither requested dimension exceeds the
image's — and characters are found, yet the call raises in `cv2.resize`:
the unconditional "errors exactly when a requested dimension exceeds the
image's" is false. -/
theorem C1_counterexample :
    sizeExceeds (some 0) (imgW imgTwo) = false ∧
    sizeExceeds (some 0) (imgH imgTwo) = false ∧
    extract_charactersE imgTwo (some 0) (some 0) (some paramsTwo) =
      .error "cv2.resize: dsize must not be empty" := by
  refine ⟨rfl, rfl, ?_⟩
  show extractCharsE imgTwo (some 0) (some 0) RPTwo = _
  have h1 : ¬ sizeExceeds (some 0) (imgW imgTwo) = true := by decide
  have h2 : ¬ sizeExceeds (some 0) (imgH imgTwo) = true := by decide
  have h3 : ¬ (imgW imgTwo = 0 ∨ imgH imgTwo = 0) := by decide
  have h4 : ¬ (RPTwo.blurKx ≤ 0 ∨ RPTwo.blurKy ≤ 0) := by decide
  have h5 : ¬ (RPTwo.ffThr < 0 ∧ hasSeed imgTwo RPTwo = true) := by
    intro hc
    exact absurd hc.1 (by decide)
  unfold extractCharsE
  rw [two_rects_eval, two_grouped_eval]
  rw [if_neg h1, if_neg h2, if_neg h3, if_neg h4, if_neg h5,
      if_neg (show ¬ rectsTwo = [] by decide),
      if_pos (show resizeRaises (some 0) (some 0) = true ∧ rectsTwo ≠ [] by decide)]

/-- C3: when no candidate survives the filter (the accepted rectangle list
is empty) and the requested output size is admissible, the function returns
the empty character list successfully. -/
theorem C3_no_candidates_empty_ok (image : CImg) (ow oh : Option Nat)
    (params : Option PDict)
    (h1 : sizeExceeds ow (imgW image) = false)
    (h2 : sizeExceeds oh (imgH image) = false)
    (h3 : rectsOf image (readParams (resolveParams params)) = []) :
    extract_characters image ow oh params = .ok [] := by
  unfold extract_characters extractCore
  simp [h1, h2, h3]

/-- C3 witness: the uniform 4×4 image yields no candidate at all and the
call returns `ok []`. -/
theorem C3_witness :
    rectsOf imgConst (readParams (resolveParams none)) = [] ∧
    extract_characters imgConst none none none = .ok [] :=
  ⟨const_rects_eval,
   C3_no_candidates_empty_ok imgConst none none none rfl rfl const_rects_eval⟩

/-- C4: the filter keeps a candidate exactly when its rectangle is inside
the inclusive size window, its pixel count inside the rectangle is nonzero
and the density `100 * pixels / (w * h)` is at least `min_pixel_density`;
the accepted rectangle list is the filtered candidate stream's rectangles in
order, and the aggregate mask is the bitwise-or fold of the accepted masks
(rejections leave both untouched). -/
theorem C4_filter_characterization (image : CImg) (P : RParams) :
    rectsOf image P = (acceptedCandsOf image P).map (·.2) ∧
    aggMaskOf image P
      = (acceptedCandsOf image P).foldl (fun a c => bitwiseOrG c.1 a)
          (zerosGrid (imgW image) (imgH image)) ∧
    ∀ cm r, acceptCand P cm r = true ↔
      (P.minW ≤ (r.w : Int) ∧ (r.w : Int) ≤ P.maxW ∧
       P.minH ≤ (r.h : Int) ∧ (r.h : Int) ≤ P.maxH ∧
       countNonZeroRect cm r ≠ 0 ∧
       P.minDensity * ((r.w * r.h : Nat) : Int) ≤ ((100 * countNonZeroRect cm r : Nat) : Int)) := by
  refine ⟨rectsOf_eq_accepted image P, ?_, ?_⟩
  · rw [aggMaskOf, scanOf, scanLoop_eq]
    rfl
  · intro cm r
    unfold acceptCand
    by_cases hsz : P.minW ≤ (r.w : Int) ∧ (r.w : Int) ≤ P.maxW ∧
        P.minH ≤ (r.h : Int) ∧ (r.h : Int) ≤ P.maxH
    · rw [if_pos hsz]
      by_cases hp : countNonZeroRect cm r = 0
      · simp [hp]
      · simp only [if_neg hp, decide_eq_true_eq]
        rw [Int.not_lt]
        obtain ⟨a1, a2, a3, a4⟩ := hsz
        simp [a1, a2, a3, a4, hp]
    · rw [if_neg hsz]
      simp only [Bool.false_eq_true, false_iff]
      intro hcontr
      exact hsz ⟨hcontr.1, hcontr.2.1, hcontr.2.2.1, hcontr.2.2.2.1⟩

/-- C6: with every other parameter fixed, lowering `min_character_width`,
`min_character_height` or `min_pixel_density` only enlarges the accepted
candidate list: the stricter run's accepted candidates form a sublist of the
looser run's, and the number of accepted rectangles cannot decrease. -/
theorem C6_filter_monotone (image : CImg) (P Pl : RParams)
    (hbx : Pl.blurKx = P.blurKx) (hby : Pl.blurKy = P.blurKy)
    (hmt : Pl.maskThreshBase = P.maskThreshBase)
    (hex : Pl.erodeKx = P.erodeKx) (hey : Pl.erodeKy = P.erodeKy)
    (hft : Pl.ffThr = P.ffThr)
    (hxw : Pl.maxW = P.maxW) (hxh : Pl.maxH = P.maxH)
    (hgt : Pl.rgThr = P.rgThr) (hge : Pl.rgEps = P.rgEps)
    (hminw : Pl.minW ≤ P.minW) (hminh : Pl.minH ≤ P.minH)
    (hd : Pl.minDensity ≤ P.minDensity) :
    (acceptedCandsOf image P).Sublist (acceptedCandsOf image Pl) ∧
    (rectsOf image P).Sublist (rectsOf image Pl) ∧
    (rectsOf image P).length ≤ (rectsOf image Pl).length := by
  have hmask : noBackgroundMaskOf image Pl = noBackgroundMaskOf image P := by
    unfold noBackgroundMaskOf
    rw [hbx, hby, hmt, hex, hey]
  have hmi : maskedImageOf image Pl = maskedImageOf image P := by
    unfold maskedImageOf
    rw [hmask]
  have hmono : ∀ c : Grid × Rect,
      acceptCand P c.1 c.2 = true → acceptCand Pl c.1 c.2 = true := by
    rintro ⟨cm, r⟩ h
    unfold acceptCand at h ⊢
    by_cases hsz : P.minW ≤ (r.w : Int) ∧ (r.w : Int) ≤ P.maxW ∧
        P.minH ≤ (r.h : Int) ∧ (r.h : Int) ≤ P.maxH
    · obtain ⟨a1, a2, a3, a4⟩ := hsz
      rw [if_pos ⟨le_trans hminw a1, by rw [hxw]; exact a2,
            le_trans hminh a3, by rw [hxh]; exact a4⟩]
      rw [if_pos ⟨a1, a2, a3, a4⟩] at h
      by_cases hp : countNonZeroRect cm r = 0
      · rw [if_pos hp] at h
        exact absurd h (by simp)
      · rw [if_neg hp] at h
        rw [if_neg hp]
        rw [decide_eq_true_eq] at h ⊢
        intro hlt
        exact h (lt_of_lt_of_le hlt
          (mul_le_mul_of_nonneg_right hd (Int.natCast_nonneg _)))
    · rw [if_neg hsz] at h
      exact absurd h (by simp)
  have hsub : (acceptedCandsOf image P).Sublist (acceptedCandsOf image Pl) := by
    unfold acceptedCandsOf
    rw [hmask, hmi, hft]
    exact List.monotone_filter_right _ hmono
  refine ⟨hsub, ?_, ?_⟩
  · rw [rectsOf_eq_accepted image P, rectsOf_eq_accepted image Pl]
    exact hsub.map _
  · rw [rectsOf_eq_accepted image P, rectsOf_eq_accepted image Pl]
    simpa using (hsub.map (·.2)).length_le

/-- C6 witness: on `imgTwo`, lowering `min_pixel_density` from 30 to 1
keeps every accepted candidate. -/
theorem C6_witness :
    RPTwoLit.minDensity ≤ RPTwoDense.minDensity ∧
    ((acceptedCandsOf imgTwo RPTwoDense).Sublist (acceptedCandsOf imgTwo RPTwoLit) ∧
     (rectsOf imgTwo RPTwoDense).Sublist (rectsOf imgTwo RPTwoLit) ∧
     (rectsOf imgTwo RPTwoDense).length ≤ (rectsOf imgTwo RPTwoLit).length) :=
  ⟨by decide,
   C6_filter_monotone imgTwo RPTwoDense RPTwoLit rfl rfl rfl rfl rfl rfl rfl rfl
     rfl rfl (by decide) (by decide) (by decide)⟩

/-- C2 (amended): when the size check passes and at least one rectangle was
accepted, the returned characters are exactly the crops of the clustered
rectangles, one per rectangle, in the order the clusterer emitted them — the
pipeline applies no re-sort, so the output is sorted by x only when the
clusterer's output already is. -/
theorem C2_characters_follow_clusterer_order (image : CImg) (ow oh : Option Nat)
    (P : RParams)
    (h1 : sizeExceeds ow (imgW image) = false)
    (h2 : sizeExceeds oh (imgH image) = false)
    (h3 : rectsOf image P ≠ []) :
    extractCore image ow oh P
      = .ok ((groupedOf image P).map (charOfRect image P ow oh)) := by
  unfold extractCore
  simp [h1, h2, h3]

/-- C2 witness: on `imgTwo` the characters are the crops of the clusterer's
rectangles in clusterer order. -/
theorem C2_witness :
    rectsOf imgTwo RPTwo ≠ [] ∧
    extractCore imgTwo none none RPTwo
      = .ok ((groupedOf imgTwo RPTwo).map (charOfRect imgTwo RPTwo none none)) := by
  have h3 : rectsOf imgTwo RPTwo ≠ [] := by
    rw [two_rects_eval]
    decide
  exact ⟨h3, C2_characters_follow_clusterer_order imgTwo none none RPTwo rfl rfl h3⟩

/-- C2 counterexample: on `imgTwo` the run succeeds, the characters are the
crops of the clustered rectangles in clusterer order, and those source
rectangles have x-coordinates `[4, 4, 2, 2]` — not sorted ascending, so the
output characters are not sorted by the x-coordinate of their source
rectangle. -/
theorem C2_counterexample :
    extract_characters imgTwo none none (some paramsTwo)
      = .ok ((groupedOf imgTwo RPTwo).map (charOfRect imgTwo RPTwo none none)) ∧
    (groupedOf imgTwo RPTwo).map Rect.x = [4, 4, 2, 2] ∧
    ¬ List.Pairwise (fun a b => a.x ≤ b.x) (groupedOf imgTwo RPTwo) := by
  refine ⟨?_, ?_, ?_⟩
  · show extractCore imgTwo none none RPTwo = _
    unfold extractCore
    rw [two_rects_eval]
    rw [if_neg (by decide), if_neg (by decide), if_neg (by decide)]
  · rw [two_grouped_eval]
    decide
  · rw [two_grouped_eval]
    decide

/-! Binary (0/255) preservation through the pipeline. -/

/-- A property holding for every element of a list and for the default also
holds for every `getD` read. -/
theorem getD_prop {α : Type} {P : α → Prop} (l : List α) (d : α)
    (hl : ∀ v ∈ l, P v) (h0 : P d) (x : Nat) : P (l.getD x d) := by
  induction l generalizing x with
  | nil => simpa using h0
  | cons a t ih =>
    cases x with
    | zero => simpa using hl a (List.mem_cons_self a t)
    | succ n =>
      rw [List.getD_cons_succ]
      exact ih (fun v hv => hl v (List.mem_cons_of_mem a hv)) n

/-- Stored-binary implies read-binary. -/
theorem binGrid_of_allBin (g : Grid) (h : AllBin g) : BinGrid g := by
  intro x y
  unfold getPx
  refine getD_prop (P := fun r : List Nat => r.getD x 0 = 0 ∨ r.getD x 0 = 255)
    g [] ?_ (Or.inl rfl) y
  intro row hrow
  exact getD_prop row 0 (h row hrow) (Or.inl rfl) x

/-- All values ≤ 255 for binary grids, in read form. -/
theorem getPx_le_255_of_allBin (g : Grid) (h : AllBin g) (x y : Nat) :
    getPx g x y ≤ 255 := by
  rcases binGrid_of_allBin g h x y with e | e <;> omega

/-- A generated grid with binary generator is stored-binary. -/
theorem allBin_mkGrid (w h : Nat) (f : Nat → Nat → Nat)
    (hf : ∀ x y, f x y = 0 ∨ f x y = 255) : AllBin (mkGrid w h f) := by
  intro row hrow v hv
  unfold mkGrid at hrow
  obtain ⟨y, _, rfl⟩ := List.mem_map.mp hrow
  obtain ⟨x, _, rfl⟩ := List.mem_map.mp hv
  exact hf x y

/-- A generated grid with binary generator is read-binary. -/
theorem binGrid_mkGrid (w h : Nat) (f : Nat → Nat → Nat)
    (hf : ∀ x y, f x y = 0 ∨ f x y = 255) : BinGrid (mkGrid w h f) := by
  intro x y
  rw [getPx_mkGrid]
  split_ifs
  · exact hf x y
  · exact Or.inl rfl

/-- The zero grid is binary. -/
theorem binGrid_zeros (w h : Nat) : BinGrid (zerosGrid w h) :=
  binGrid_mkGrid w h _ (fun _ _ => Or.inl rfl)

/-- The inverted-Otsu threshold output is stored-binary. -/
theorem allBin_thresholdOtsuInv (g : Grid) (b : Int) :
    AllBin (thresholdOtsuInv g b) := by
  intro row hrow v hv
  unfold thresholdOtsuInv at hrow
  obtain ⟨r0, _, rfl⟩ := List.mem_map.mp hrow
  obtain ⟨u, _, rfl⟩ := List.mem_map.mp hv
  split_ifs <;> simp

/-- The inverted-Otsu threshold output is read-binary. -/
theorem binGrid_thresholdOtsuInv (g : Grid) (b : Int) :
    BinGrid (thresholdOtsuInv g b) :=
  binGrid_of_allBin _ (allBin_thresholdOtsuInv g b)

/-- One erosion pixel of a binary grid is binary. -/
theorem erodePx_bin (a b : Int) (g : Grid) (hg : BinGrid g) (x y : Nat) :
    erodePx a b g x y = 0 ∨ erodePx a b g x y = 255 := by
  unfold erodePx
  have h1 := hg x (y - 1)
  have h2 := hg x y
  split_ifs <;> rcases h1 with e1 | e1 <;> rcases h2 with e2 | e2 <;>
    simp only [e1, e2, Nat.min_def] <;> split_ifs <;> omega

/-- One dilation pixel of a binary grid is binary. -/
theorem dilatePx_bin (a b : Int) (g : Grid) (hg : BinGrid g) (x y : Nat) :
    dilatePx a b g x y = 0 ∨ dilatePx a b g x y = 255 := by
  unfold dilatePx
  have h1 := hg x (y + 1)
  have h2 := hg x y
  split_ifs <;> rcases h1 with e1 | e1 <;> rcases h2 with e2 | e2 <;>
    simp only [e1, e2, Nat.max_def] <;> split_ifs <;> omega

/-- Erosion preserves read-binariness. -/
theorem binGrid_erodeK (a b : Int) (g : Grid) (hg : BinGrid g) :
    BinGrid (erodeK a b g) :=
  binGrid_mkGrid _ _ _ (erodePx_bin a b g hg)

/-- Erosion output is stored-binary. -/
theorem allBin_erodeK (a b : Int) (g : Grid) (hg : BinGrid g) :
    AllBin (erodeK a b g) :=
  allBin_mkGrid _ _ _ (erodePx_bin a b g hg)

/-- Dilation preserves read-binariness. -/
theorem binGrid_dilateK (a b : Int) (g : Grid) (hg : BinGrid g) :
    BinGrid (dilateK a b g) :=
  binGrid_mkGrid _ _ _ (dilatePx_bin a b g hg)

/-- `bitwise_and` of binary grids is binary. -/
theorem binGrid_bitwiseAndG (g1 g2 : Grid) (h1 : BinGrid g1) (h2 : BinGrid g2) :
    BinGrid (bitwiseAndG g1 g2) := by
  intro x y
  rw [getPx_bitwiseAndG]
  rcases h1 x y with e | e <;> rcases h2 x y with e2 | e2 <;> rw [e, e2] <;> decide

/-- A zipped `lor` row of binary rows is binary. -/
theorem getD_zipWith_lor_bin (r1 r2 : List Nat)
    (h1 : ∀ x, r1.getD x 0 = 0 ∨ r1.getD x 0 = 255)
    (h2 : ∀ x, r2.getD x 0 = 0 ∨ r2.getD x 0 = 255) (x : Nat) :
    (r1.zipWith Nat.lor r2).getD x 0 = 0 ∨ (r1.zipWith Nat.lor r2).getD x 0 = 255 := by
  induction r1 generalizing r2 x with
  | nil => simp
  | cons a t ih =>
    cases r2 with
    | nil => simp
    | cons b t2 =>
      cases x with
      | zero =>
        have ha := h1 0
        have hb := h2 0
        rw [List.getD_cons_zero] at ha hb
        rw [List.zipWith_cons_cons, List.getD_cons_zero]
        rcases ha with e | e <;> rcases hb with e2 | e2 <;> rw [e, e2] <;> decide
      | succ n =>
        rw [List.zipWith_cons_cons, List.getD_cons_succ]
        exact ih t2 (fun x => by simpa using h1 (x + 1))
          (fun x => by simpa using h2 (x + 1)) n

/-- `bitwise_or` of binary grids is binary. -/
theorem binGrid_bitwiseOrG (g1 : Grid) : ∀ (g2 : Grid), BinGrid g1 → BinGrid g2 →
    BinGrid (bitwiseOrG g1 g2) := by
  induction g1 with
  | nil =>
    intro g2 _ _ x y
    simp [bitwiseOrG, getPx]
  | cons r g ih =>
    intro g2 h1 h2 x y
    cases g2 with
    | nil => simp [bitwiseOrG, getPx]
    | cons r2 g2' =>
      cases y with
      | zero =>
        have := getD_zipWith_lor_bin r r2
          (fun x => by simpa [getPx] using h1 x 0)
          (fun x => by simpa [getPx] using h2 x 0) x
        simpa [bitwiseOrG, getPx] using this
      | succ n =>
        have := ih g2'
          (fun x y => by simpa [getPx] using h1 x (y + 1))
          (fun x y => by simpa [getPx] using h2 x (y + 1)) x n
        simpa [bitwiseOrG, getPx] using this

/-- The or-fold of binary masks over a binary accumulator is binary. -/
theorem binGrid_foldl_or (l : List (Grid × Rect)) (init : Grid)
    (hi : BinGrid init) (hl : ∀ c ∈ l, BinGrid c.1) :
    BinGrid (l.foldl (fun a c => bitwiseOrG c.1 a) init) := by
  induction l generalizing init with
  | nil => exact hi
  | cons c t ih =>
    exact ih _ (binGrid_bitwiseOrG c.1 init (hl c (List.mem_cons_self c t)) hi)
      (fun d hd => hl d (List.mem_cons_of_mem c hd))

/-- Any candidate's character mask is binary (it is the shifted fill mask
intersected with a binary background mask). -/
theorem binGrid_candidate (mi : CImg) (nb : Grid) (w h : Nat) (thr : Int)
    (x : Nat) (cm : Grid) (r : Rect) (hnb : BinGrid nb)
    (hc : candidateAt mi nb w h thr x = some (cm, r)) : BinGrid cm := by
  unfold candidateAt at hc
  split_ifs at hc with hs
  · injection hc with hc'
    rw [Prod.mk.injEq] at hc'
    rw [← hc'.1]
    exact binGrid_bitwiseAndG _ _
      (binGrid_mkGrid _ _ _ (fun px py => by split_ifs <;> simp))
      hnb

/-- The background-removal mask is binary. -/
theorem binGrid_noBackgroundMask (image : CImg) (P : RParams) :
    BinGrid (noBackgroundMaskOf image P) :=
  binGrid_erodeK _ _ _ (binGrid_thresholdOtsuInv _ _)

/-- The aggregate character mask is binary. -/
theorem binGrid_aggMask (image : CImg) (P : RParams) :
    BinGrid (aggMaskOf image P) := by
  rw [aggMaskOf, scanOf, scanLoop_eq]
  refine binGrid_foldl_or _ _ (binGrid_zeros _ _) ?_
  rintro ⟨cm, r⟩ hc
  rw [List.mem_filter] at hc
  have hc1 := hc.1
  rw [candidatesOf, List.mem_filterMap] at hc1
  obtain ⟨x, _, hx⟩ := hc1
  exact binGrid_candidate _ _ _ _ _ _ cm r (binGrid_noBackgroundMask image P) hx

/-- The refined aggregate mask is binary. -/
theorem binGrid_refined (image : CImg) (P : RParams) :
    BinGrid (refinedOf image P) := by
  rw [refinedOf, refineMask]
  exact binGrid_erodeK _ _ _ (binGrid_dilateK _ _ _ (binGrid_aggMask image P))

/-- The refined aggregate mask is stored-binary. -/
theorem allBin_refined (image : CImg) (P : RParams) :
    AllBin (refinedOf image P) := by
  rw [refinedOf, refineMask]
  exact allBin_erodeK _ _ _ (binGrid_dilateK _ _ _ (binGrid_aggMask image P))

/-- Cropping preserves stored-binariness. -/
theorem allBin_crop (g : Grid) (r : Rect) (hg : AllBin g) :
    AllBin (cropGrid g r) := by
  intro row hrow v hv
  unfold cropGrid at hrow
  obtain ⟨r0, hr0, rfl⟩ := List.mem_map.mp hrow
  exact hg r0 (List.drop_subset _ _ (List.take_subset _ _ hr0)) v
    (List.drop_subset _ _ (List.take_subset _ _ hv))

/-- Cropping a stored-binary grid is read-binary. -/
theorem binGrid_crop (g : Grid) (r : Rect) (hg : AllBin g) :
    BinGrid (cropGrid g r) :=
  binGrid_of_allBin _ (allBin_crop g r hg)

/-- Nearest-neighbour resampling of a binary grid is binary: every output
pixel is a read of the source grid. -/
theorem binGrid_resize (g : Grid) (ow oh : Nat) (hg : BinGrid g) :
    BinGrid (resizeNearest g ow oh) :=
  binGrid_mkGrid _ _ _ (fun _ _ => hg _ _)

/-- The resampled grid has the requested number of rows. -/
theorem gridH_resize (g : Grid) (ow oh : Nat) :
    gridH (resizeNearest g ow oh) = oh := by
  unfold resizeNearest
  exact gridH_mkGrid _ _ _

/-- The resampled grid has the requested number of columns. -/
theorem gridW_resize (g : Grid) (ow oh : Nat) (hoh : 0 < oh) :
    gridW (resizeNearest g ow oh) = ow := by
  unfold resizeNearest
  exact gridW_mkGrid _ _ _ hoh

/-- C8: when both output dimensions are requested (positive) and the call
succeeds, every returned character is exactly `oh` rows by `ow` columns and
every pixel read of it is 0 or 255 — nearest-neighbour resampling only
selects existing pixels of the binary cropped mask. -/
theorem C8_output_size_and_binary (image : CImg) (params : Option PDict)
    (ow oh : Nat) (cs : List Grid) (how : 1 ≤ ow) (hoh : 1 ≤ oh)
    (hrun : extract_characters image (some ow) (some oh) params = .ok cs) :
    ∀ c ∈ cs, gridH c = oh ∧ gridW c = ow ∧ BinGrid c := by
  unfold extract_characters extractCore at hrun
  split_ifs at hrun with h1 h2 h3
  · injection hrun with hcs
    subst hcs
    intro c hc
    simp at hc
  · injection hrun with hcs
    subst hcs
    intro c hc
    rw [List.mem_map] at hc
    obtain ⟨r, _, rfl⟩ := hc
    refine ⟨?_, ?_, ?_⟩
    · exact gridH_resize _ ow oh
    · exact gridW_resize _ ow oh hoh
    · exact binGrid_resize _ _ _
        (binGrid_crop _ _ (allBin_refined image _))

/-- Staged evaluation: the `(3, 3)`-resampled run on `imgTwo`. -/
theorem two_resize_eval :
    extract_characters imgTwo (some 3) (some 3) (some paramsTwo) = .ok csThreeTwo := by
  show extractCore imgTwo (some 3) (some 3) RPTwo = _
  unfold extractCore
  rw [two_rects_eval, if_neg (by decide), if_neg (by decide), if_neg (by decide),
    two_grouped_eval]
  rw [show charOfRect imgTwo RPTwo (some 3) (some 3)
      = fun r => resizeNearest (cropGrid (refinedOf imgTwo RPTwo) r) 3 3 from
    funext fun r => rfl]
  simp only [two_refined_eval]
  exact congrArg Except.ok (by decide)

/-- C8 witness: the `(3, 3)` run on `imgTwo` returns four 3×3 binary
characters. -/
theorem C8_witness :
    (1 : Nat) ≤ 3 ∧ ∀ c ∈ csThreeTwo, gridH c = 3 ∧ gridW c = 3 ∧ BinGrid c :=
  ⟨by decide,
   C8_output_size_and_binary imgTwo (some paramsTwo) 3 3 csThreeTwo
     (by decide) (by decide) two_resize_eval⟩

/-! Dimension bounds of the background mask, needed to characterize the
candidate mask pointwise. -/

/-- The background mask has the height of the image. -/
theorem gridH_noBg (image : CImg) (P : RParams) :
    gridH (noBackgroundMaskOf image P) = imgH image := by
  cases image with
  | nil =>
    simp [noBackgroundMaskOf, erodeK, thresholdOtsuInv, blur, cvtColorGray,
      gridH, gridW, imgH, mkGrid]
  | cons row rest =>
    simp [noBackgroundMaskOf, erodeK, thresholdOtsuInv, blur, cvtColorGray,
      gridH, gridW, imgH, mkGrid]

/-- The background mask is no wider than the image. -/
theorem gridW_noBg_le (image : CImg) (P : RParams) :
    gridW (noBackgroundMaskOf image P) ≤ imgW image := by
  cases image with
  | nil =>
    simp [noBackgroundMaskOf, erodeK, thresholdOtsuInv, blur, cvtColorGray,
      gridH, gridW, imgW, mkGrid]
  | cons row rest =>
    simp [noBackgroundMaskOf, erodeK, thresholdOtsuInv, blur, cvtColorGray,
      gridH, gridW, imgW, mkGrid, List.range_succ_eq_map]

/-- A nonzero read of the background mask is inside the image bounds. -/
theorem noBg_ne_zero_bounds (image : CImg) (P : RParams) (px py : Nat)
    (h : getPx (noBackgroundMaskOf image P) px py ≠ 0) :
    px < imgW image ∧ py < imgH image := by
  constructor
  · by_contra hx
    have : gridW (noBackgroundMaskOf image P) ≤ px :=
      le_trans (gridW_noBg_le image P) (by omega)
    apply h
    unfold noBackgroundMaskOf erodeK
    rw [getPx_mkGrid, if_neg]
    intro hcontr
    have hW : gridW (noBackgroundMaskOf image P)
        = gridW (thresholdOtsuInv
            (blur (cvtColorGray image) P.blurKx.toNat P.blurKy.toNat)
            P.maskThreshBase) := by
      unfold noBackgroundMaskOf erodeK
      by_cases hzero : 0 < gridH (thresholdOtsuInv
          (blur (cvtColorGray image) P.blurKx.toNat P.blurKy.toNat)
          P.maskThreshBase)
      · rw [gridW_mkGrid _ _ _ hzero]
      · have h0 : gridH (thresholdOtsuInv
            (blur (cvtColorGray image) P.blurKx.toNat P.blurKy.toNat)
            P.maskThreshBase) = 0 := by omega
        rw [show (thresholdOtsuInv
            (blur (cvtColorGray image) P.blurKx.toNat P.blurKy.toNat)
            P.maskThreshBase) = [] from List.length_eq_zero.mp h0]
        rfl
    rw [← hW] at hcontr
    omega
  · by_contra hy
    have hH : gridH (noBackgroundMaskOf image P) ≤ py := by
      rw [gridH_noBg]
      omega
    exact h (getPx_of_height_le _ px py hH)

/-- The candidate masks are binary: read lemma for the shifted fill mask. -/
theorem binGrid_shiftedFill (w h : Nat) (fs : List (Nat × Nat)) :
    BinGrid (shiftedFillMask w h fs) :=
  binGrid_mkGrid _ _ _ (fun _ _ => by split_ifs <;> simp)

/-- `land` of binary values reaches 255 exactly when both do. -/
theorem land_eq_255_iff (u v : Nat) (hu : u = 0 ∨ u = 255) (hv : v = 0 ∨ v = 255) :
    (Nat.land u v = 255 ↔ (u = 255 ∧ v = 255)) := by
  rcases hu with rfl | rfl <;> rcases hv with rfl | rfl <;> decide

/-- C5 (amended): the candidate character mask at a scan column is the
flood-fill mask shifted one pixel down and right, intersected with the
background mask: a pixel `(px, py)` reads 255 exactly when `px, py ≥ 1`, the
image pixel `(px - 1, py - 1)` was filled, and the background mask reads 255
at `(px, py)` (in particular row 0 and column 0 are never set). -/
theorem C5_mask_is_shifted_fill_and (image : CImg) (P : RParams) (x : Nat)
    (cm : Grid) (r : Rect)
    (hc : candidateAtOf image P x = some (cm, r)) :
    r = rectOfPoints (fillSetOf image P x) ∧
    ∀ px py,
      getPx cm px py = 255 ↔
        (1 ≤ px ∧ 1 ≤ py ∧ (px - 1, py - 1) ∈ fillSetOf image P x ∧
         getPx (noBackgroundMaskOf image P) px py = 255) := by
  unfold candidateAtOf candidateAt at hc
  split_ifs at hc with hs
  injection hc with hc'
  rw [Prod.mk.injEq] at hc'
  obtain ⟨hcm, hr⟩ := hc'
  constructor
  · rw [← hr]
    rfl
  · intro px py
    simp only [fillSetOf]
    rw [← hcm, getPx_bitwiseAndG,
      land_eq_255_iff _ _ (binGrid_shiftedFill _ _ _ px py)
        (binGrid_noBackgroundMask image P px py)]
    unfold shiftedFillMask
    rw [getPx_mkGrid]
    constructor
    · rintro ⟨hshift, hnb⟩
      split_ifs at hshift with hin hcond
      exact ⟨hcond.1, hcond.2.1, hcond.2.2, hnb⟩
    · rintro ⟨h1, h2, hmem, hnb⟩
      have hin : px < imgW image ∧ py < imgH image :=
        noBg_ne_zero_bounds image P px py (by rw [hnb]; decide)
      rw [if_pos hin, if_pos ⟨h1, h2, hmem⟩]
      exact ⟨rfl, hnb⟩

/-- C5 counterexample: at scan column 4 of `imgTwo` the image pixel `(4, 2)`
is both filled by the flood fill and foreground in the background mask, yet
the candidate character mask reads 0 there (the mask holds the fill shifted
by one pixel, not the fill itself). -/
theorem C5_counterexample :
    candidateAtOf imgTwo RPTwo 4 = some (cmFour, ⟨4, 2, 2, 3⟩) ∧
    (4, 2) ∈ fillSetOf imgTwo RPTwo 4 ∧
    getPx (noBackgroundMaskOf imgTwo RPTwo) 4 2 = 255 ∧
    getPx cmFour 4 2 = 0 := by
  refine ⟨two_cand_eval, ?_, ?_, by decide⟩
  · rw [fillSetOf, two_masked_eval, RPTwo_eval]
    decide
  · rw [two_mask_eval]
    decide

/-- C5 witness: the amended description holds at scan column 4 of `imgTwo`;
instantiating it at the pixel `(5, 3)` (which reads 255) and at `(4, 2)`
(which reads 0 despite being filled and foreground, since only its shifted
neighbour is set). -/
theorem C5_witness :
    candidateAtOf imgTwo RPTwo 4 = some (cmFour, ⟨4, 2, 2, 3⟩) ∧
    (getPx cmFour 5 3 = 255 ↔
      (1 ≤ 5 ∧ 1 ≤ 3 ∧ ((4, 2) : Nat × Nat) ∈ fillSetOf imgTwo RPTwo 4 ∧
       getPx (noBackgroundMaskOf imgTwo RPTwo) 5 3 = 255)) :=
  ⟨two_cand_eval,
   (C5_mask_is_shifted_fill_and imgTwo RPTwo 4 cmFour ⟨4, 2, 2, 3⟩
      two_cand_eval).2 5 3⟩

/-! The mask refiner is a morphological closing with a vertical two-pixel
structuring element, hence idempotent. -/

/-- Generated grids with pointwise-equal generators are equal. -/
theorem mkGrid_congr (w h : Nat) (f g : Nat → Nat → Nat)
    (hfg : ∀ x, x < w → ∀ y, y < h → f x y = g x y) :
    mkGrid w h f = mkGrid w h g := by
  unfold mkGrid
  apply List.map_congr_left
  intro y hy
  apply List.map_congr_left
  intro x hx
  exact hfg x (List.mem_range.mp hx) y (List.mem_range.mp hy)

/-- Dilation keeps the height. -/
theorem gridH_dilateK (a b : Int) (g : Grid) : gridH (dilateK a b g) = gridH g := by
  rw [dilateK]
  exact gridH_mkGrid _ _ _

/-- Dilation keeps the width (nonempty grids). -/
theorem gridW_dilateK (a b : Int) (g : Grid) (h : 0 < gridH g) :
    gridW (dilateK a b g) = gridW g := by
  rw [dilateK]
  exact gridW_mkGrid _ _ _ h

/-- Erosion keeps the height. -/
theorem gridH_erodeK (a b : Int) (g : Grid) : gridH (erodeK a b g) = gridH g := by
  rw [erodeK]
  exact gridH_mkGrid _ _ _

/-- Erosion keeps the width (nonempty grids). -/
theorem gridW_erodeK (a b : Int) (g : Grid) (h : 0 < gridH g) :
    gridW (erodeK a b g) = gridW g := by
  rw [erodeK]
  exact gridW_mkGrid _ _ _ h

/-- The `(3, 3)` kernel dilation pixel. -/
theorem dilatePx33 (g : Grid) (x y : Nat) :
    dilatePx 3 3 g x y = Nat.max (getPx g x (y + 1)) (getPx g x y) := by
  simp [dilatePx]

/-- The `(3, 3)` kernel erosion pixel. -/
theorem erodePx33 (g : Grid) (x y : Nat) :
    erodePx 3 3 g x y
      = Nat.min (if 1 ≤ y then getPx g x (y - 1) else 255) (getPx g x y) := by
  simp [erodePx]

/-- A column of the dilated grid is `colD` of the column. -/
theorem getPx_dilateK33 (m : Grid) (x y : Nat) (hx : x < gridW m) :
    getPx (dilateK 3 3 m) x y = colD (gridH m) (fun j => getPx m x j) y := by
  rw [dilateK, getPx_mkGrid]
  unfold colD
  by_cases hy : y < gridH m
  · rw [if_pos ⟨hx, hy⟩, if_pos hy, dilatePx33]
    by_cases hy1 : y + 1 < gridH m
    · rw [if_pos hy1]
    · rw [if_neg hy1,
        getPx_of_height_le m x (y + 1) (by unfold gridH at hy1; omega)]
  · rw [if_neg (by tauto), if_neg hy]

/-- A column of the eroded grid is `colE` of the column. -/
theorem getPx_erodeK33 (g : Grid) (x y : Nat) (hx : x < gridW g) :
    getPx (erodeK 3 3 g) x y = colE (gridH g) (fun j => getPx g x j) y := by
  rw [erodeK, getPx_mkGrid]
  unfold colE
  by_cases hy : y < gridH g
  · rw [if_pos ⟨hx, hy⟩, if_pos hy, erodePx33]
  · rw [if_neg (by tauto), if_neg hy]

set_option maxHeartbeats 2000000 in
/-- The dilate-erode-dilate collapse of the closing, columnwise: applying
the dilation to the eroded dilation gives back the dilation (values do not
exceed 255). -/
theorem colDED (h : Nat) (a : Nat → Nat) (ha : ∀ y, a y ≤ 255) :
    ∀ y, colD h (colE h (colD h a)) y = colD h a y := by
  intro y
  cases y with
  | zero =>
    have h0 := ha 0
    have h1 := ha (0 + 1)
    have h2 := ha (0 + 1 + 1)
    simp only [colD, colE, Nat.add_sub_cancel, Nat.max_def, Nat.min_def]
    split_ifs <;> omega
  | succ n =>
    have h0 := ha n
    have h1 := ha (n + 1)
    have h2 := ha (n + 1 + 1)
    have h3 := ha (n + 1 + 1 + 1)
    simp only [colD, colE, Nat.add_sub_cancel, Nat.max_def, Nat.min_def]
    split_ifs <;> omega

/-- Reading the refined grid columnwise. -/
theorem getPx_refine_col (m : Grid) (x : Nat) (hx : x < gridW m)
    (hpos : 0 < gridH m) (y : Nat) :
    getPx (refineMask m) x y
      = colE (gridH m) (colD (gridH m) (fun j => getPx m x j)) y := by
  rw [refineMask, getPx_erodeK33 _ x y (by rw [gridW_dilateK 3 3 m hpos]; exact hx),
    gridH_dilateK]
  congr 1
  exact funext fun j => getPx_dilateK33 m x j hx

/-- C7: the mask refiner (one dilation then one erosion with the fixed
`(3, 3)` kernel) is idempotent on every binary mask: refining an
already-refined mask changes nothing. -/
theorem C7_refiner_idempotent (m : Grid) (hbin : AllBin m) :
    refineMask (refineMask m) = refineMask m := by
  rcases Nat.eq_zero_or_pos (gridH m) with h0 | hpos
  · have hm : m = [] := List.length_eq_zero.mp h0
    subst hm
    rfl
  · have hH1 : gridH (refineMask m) = gridH m := by
      rw [refineMask, gridH_erodeK, gridH_dilateK]
    have hW1 : gridW (refineMask m) = gridW m := by
      rw [refineMask, gridW_erodeK _ _ _ (by rw [gridH_dilateK]; exact hpos),
        gridW_dilateK _ _ _ hpos]
    have hpos1 : 0 < gridH (refineMask m) := by
      rw [hH1]
      exact hpos
    have hshape1 : refineMask (refineMask m)
        = mkGrid (gridW m) (gridH m)
            (erodePx 3 3 (dilateK 3 3 (refineMask m))) := by
      rw [refineMask, erodeK, gridH_dilateK, hH1,
        gridW_dilateK _ _ _ hpos1, hW1]
    have hshape2 : refineMask m
        = mkGrid (gridW m) (gridH m) (erodePx 3 3 (dilateK 3 3 m)) := by
      rw [refineMask, erodeK, gridH_dilateK, gridW_dilateK _ _ _ hpos]
    rw [hshape1]
    conv_rhs => rw [hshape2]
    apply mkGrid_congr
    intro x hx y _
    have ha : ∀ j, getPx m x j ≤ 255 := fun j => getPx_le_255_of_allBin m hbin x j
    have hDED : colD (gridH m) (colE (gridH m) (colD (gridH m) (fun j => getPx m x j)))
        = colD (gridH m) (fun j => getPx m x j) :=
      funext (colDED (gridH m) (fun j => getPx m x j) ha)
    have hd2 : ∀ j, getPx (dilateK 3 3 (refineMask m)) x j
        = colD (gridH m) (fun j => getPx m x j) j := by
      intro j
      rw [getPx_dilateK33 _ x j (by rw [hW1]; exact hx), hH1,
        show (fun j => getPx (refineMask m) x j)
            = colE (gridH m) (colD (gridH m) (fun j => getPx m x j)) from
          funext fun j => getPx_refine_col m x hx hpos j,
        hDED]
    have hd1 : ∀ j, getPx (dilateK 3 3 m) x j
        = colD (gridH m) (fun j => getPx m x j) j :=
      fun j => getPx_dilateK33 m x j hx
    rw [erodePx33, erodePx33, hd2, hd2, hd1, hd1]

/-- C7 witness: the aggregate mask of `imgTwo` is binary and refining it
twice equals refining it once. -/
theorem C7_witness :
    AllBin aggTwo ∧ refineMask (refineMask aggTwo) = refineMask aggTwo :=
  ⟨by unfold AllBin; decide, C7_refiner_idempotent aggTwo (by unfold AllBin; decide)⟩

/-! Parameter dictionary semantics (lines 79–84): lookups after resolution. -/

/-- Lookup distributes over append (first match wins). -/
theorem lookup_append (l1 l2 : PDict) (k : String) :
    (l1 ++ l2).lookup k = (l1.lookup k).or (l2.lookup k) := by
  induction l1 with
  | nil => simp [Option.or]
  | cons a t ih =>
    rcases a with ⟨ka, va⟩
    rw [List.cons_append]
    cases hka : (k == ka) with
    | true => simp [List.lookup, hka, Option.or]
    | false => simp [List.lookup, hka, ih]

/-- Lookup through the resolution fold: the caller's binding wins, a default
fills a gap. -/
theorem lookup_foldl_resolve (L : List (String × Int)) (d : PDict) (k : String) :
    (L.foldl (fun acc kv => if (acc.lookup kv.1).isSome then acc else acc ++ [kv]) d).lookup k
      = (d.lookup k).or (L.lookup k) := by
  induction L generalizing d with
  | nil => simp [Option.or_none]
  | cons kv L ih =>
    rcases kv with ⟨ka, va⟩
    rw [List.foldl_cons]
    by_cases hd : (d.lookup ka).isSome
    · rw [if_pos hd, ih]
      cases hka : (k == ka) with
      | true =>
        have hk : k = ka := eq_of_beq hka
        subst hk
        obtain ⟨v, hv⟩ := Option.isSome_iff_exists.mp hd
        rw [hv]
        simp [List.lookup, Option.or]
      | false => simp [List.lookup, hka]
    · rw [if_neg hd, ih, lookup_append]
      cases hka : (k == ka) with
      | true =>
        have hk : k = ka := eq_of_beq hka
        subst hk
        have hnone : d.lookup k = none := Option.not_isSome_iff_eq_none.mp hd
        rw [hnone]
        simp [List.lookup, Option.or]
      | false => simp [List.lookup, hka, Option.or_none]

/-- Lookup after parameter resolution. -/
theorem lookup_resolveParams (d : PDict) (k : String) :
    (resolveParams (some d)).lookup k
      = (d.lookup k).or (PARAMS_DEFAULT.lookup k) :=
  lookup_foldl_resolve PARAMS_DEFAULT d k

/-- C9: the `group_threshold` key is never consumed: two calls whose
parameter dictionaries agree on the lookup of every other key (whether or
not either contains `group_threshold`, and whatever value it holds) return
identical results. -/
theorem C9_group_threshold_unused (image : CImg) (ow oh : Option Nat)
    (d1 d2 : PDict)
    (hk : ∀ k, k ≠ "group_threshold" → d1.lookup k = d2.lookup k) :
    extract_characters image ow oh (some d1)
      = extract_characters image ow oh (some d2) := by
  unfold extract_characters
  have hgp : ∀ k, k ≠ "group_threshold" →
      getParam (resolveParams (some d1)) k = getParam (resolveParams (some d2)) k := by
    intro k hkne
    unfold getParam
    rw [lookup_resolveParams, lookup_resolveParams, hk k hkne]
  have hread : readParams (resolveParams (some d1))
      = readParams (resolveParams (some d2)) := by
    unfold readParams
    rw [RParams.mk.injEq]
    exact ⟨hgp _ (by decide), hgp _ (by decide), hgp _ (by decide),
      hgp _ (by decide), hgp _ (by decide), hgp _ (by decide),
      hgp _ (by decide), hgp _ (by decide), hgp _ (by decide),
      hgp _ (by decide), hgp _ (by decide), hgp _ (by decide),
      hgp _ (by decide)⟩
  rw [hread]

/-- C9 witness: changing only the `group_threshold` value (5 versus 7) on
top of `paramsTwo` leaves the output unchanged. -/
theorem C9_witness :
    extract_characters imgTwo none none
        (some (("group_threshold", 5) :: paramsTwo))
      = extract_characters imgTwo none none
          (some (("group_threshold", 7) :: paramsTwo)) :=
  C9_group_threshold_unused imgTwo none none _ _ (fun k hk => by
    have hb : (k == "group_threshold") = false := by
      rcases hbk : (k == "group_threshold") with _ | _
      · rfl
      · exact absurd (eq_of_beq hbk) hk
    simp [List.lookup, hb])

/-- The resolution fold appends exactly the missing defaults, in order. -/
theorem resolve_foldl_append (L : List (String × Int)) (d : PDict)
    (hnd : L.Pairwise (fun a b => a.1 ≠ b.1)) :
    L.foldl (fun acc kv => if (acc.lookup kv.1).isSome then acc else acc ++ [kv]) d
      = d ++ L.filter (fun kv => (d.lookup kv.1).isNone) := by
  induction L generalizing d with
  | nil => simp
  | cons kv L ih =>
    rw [List.foldl_cons]
    have hpw := List.pairwise_cons.mp hnd
    cases hlp : d.lookup kv.1 with
    | some v =>
      rw [if_pos (by simp [hlp]), ih _ hpw.2, List.filter_cons]
      simp [hlp]
    | none =>
      rw [if_neg (by simp [hlp]), ih _ hpw.2, List.filter_cons]
      rw [List.append_assoc]
      simp only [hlp, Option.isNone_none, if_pos]
      rw [List.singleton_append]
      congr 1
      congr 1
      apply List.filter_congr
      intro a ha
      have hne : a.1 ≠ kv.1 := fun h => (hpw.1 a ha) h.symm
      rw [lookup_append]
      rw [show List.lookup a.1 [kv] = none from by
        have hb : (a.1 == kv.1) = false := by
          rcases hbk : (a.1 == kv.1) with _ | _
          · rfl
          · exact absurd (eq_of_beq hbk) hne
        simp [List.lookup, hb]]
      cases List.lookup a.1 d <;> rfl

/-- C10: resolving a caller dictionary mutates it by appending, in table
order, exactly the default entries whose key the caller did not supply;
caller entries are untouched (so supplied keys keep their values), the
default table has 14 keys, and afterwards every default key is present. -/
theorem C10_params_resolved_in_place (d : PDict) :
    resolveParams (some d)
      = d ++ PARAMS_DEFAULT.filter (fun kv => (d.lookup kv.1).isNone) ∧
    PARAMS_DEFAULT.length = 14 ∧
    (PARAMS_DEFAULT.all fun kv => ((resolveParams (some d)).lookup kv.1).isSome) = true := by
  refine ⟨resolve_foldl_append PARAMS_DEFAULT d (by decide), by decide, ?_⟩
  rw [List.all_eq_true]
  intro kv hkv
  have hdef : ∀ kv ∈ PARAMS_DEFAULT, (PARAMS_DEFAULT.lookup kv.1).isSome = true := by
    decide
  rw [lookup_resolveParams]
  cases hdl : d.lookup kv.1 with
  | some v => simp [Option.or]
  | none =>
    simp only [Option.or, decide_eq_true_eq]
    exact hdef kv hkv

end VkCaptcha
